import Mathlib

/-!
Verification of the Turn Resolution Engine of the AI-Rep restaurant agent
(`src/backend/call_flow.py`, `src/backend/intents.py`).

Text is embedded as `List Char`; the Python regex constructs used by the
source are embedded as specialised scanners reproducing the CPython `re`
semantics for the exact patterns that appear in the source (leftmost match,
greedy maximal munch where the neighbouring character classes are disjoint,
lazy minimal expansion for `+?`, word boundaries for `\b`).  Prices are
embedded in exact cents (`ℤ`); every price the source handles is an exact
multiple of a cent, on which Python float arithmetic is exact and `%0.2f`
formatting agrees.  The catalog `business_data.json` is not among
the repository's files, so the menu index is modelled from the spec (see
`MENU`).
-/

namespace CallFlow

abbrev Str := List Char

def S (s : String) : Str := s.toList

/-- ASCII lowercasing, the behaviour of Python `str.lower` on the ASCII
texts this development works with. -/
def lowc (c : Char) : Char :=
  if 'A' ≤ c ∧ c ≤ 'Z' then Char.ofNat (c.toNat + 32) else c

def lowerS (s : Str) : Str := s.map lowc

/-- Python `\s` (ASCII whitespace). -/
def isWSc (c : Char) : Bool :=
  c == ' ' || c == '\t' || c == '\n' || c == '\r' || c == Char.ofNat 11 || c == Char.ofNat 12

def isDigitC (c : Char) : Bool := '0' ≤ c && c ≤ '9'

def isUpperC (c : Char) : Bool := 'A' ≤ c && c ≤ 'Z'

def isLowerAlphaC (c : Char) : Bool := 'a' ≤ c && c ≤ 'z'

def isAlphaC (c : Char) : Bool := isUpperC c || isLowerAlphaC c

/-- Python `\w` on ASCII text. -/
def isWordC (c : Char) : Bool := isAlphaC c || isDigitC c || c == '_'

/-- Does `n` match at the very start of `h`? -/
def begMatch : Str → Str → Bool
  | [], _ => true
  | _ :: _, [] => false
  | a :: as, b :: bs => a == b && begMatch as bs

/-- Python `n in h` (substring containment). -/
def hasSub (n : Str) : Str → Bool
  | [] => n.isEmpty
  | b :: bs => begMatch n (b :: bs) || hasSub n bs

lemma dropWhileLenLe (p : Char → Bool) (s : Str) : (s.dropWhile p).length ≤ s.length := by
  induction s with
  | nil => simp
  | cons c t ih =>
    by_cases h : p c
    · simp only [List.dropWhile_cons, h, if_pos]
      simp only [List.length_cons]
      omega
    · simp [List.dropWhile_cons, h]

lemma begMatch_length {n h : Str} (hm : begMatch n h = true) : n.length ≤ h.length := by
  induction n generalizing h with
  | nil => simp
  | cons a as ih =>
    cases h with
    | nil => simp [begMatch] at hm
    | cons b bs =>
      simp only [begMatch, Bool.and_eq_true] at hm
      have := ih hm.2
      simp only [List.length_cons]
      omega

/-- Python `str.split()` — split on whitespace runs, dropping empties.  The
fuel, at least the string's length at every call, makes the recursion
structural (each step consumes at least one character). -/
def splitWSGo : Nat → Str → List Str
  | 0, _ => []
  | _ + 1, [] => []
  | fuel + 1, c :: t =>
    if isWSc c then splitWSGo fuel t
    else ((c :: t).takeWhile (fun x => !isWSc x))
      :: splitWSGo fuel (t.dropWhile (fun x => !isWSc x))

def splitWS (s : Str) : List Str := splitWSGo s.length s

/-- Python `str.strip()`. -/
def stripWS (s : Str) : Str :=
  ((s.dropWhile isWSc).reverse.dropWhile isWSc).reverse

/-- Numeric value of a digit string (the semantics of Python `int` on a
string of ASCII digits). -/
def digitsVal (s : Str) : Nat :=
  s.foldl (fun a c => 10 * a + (c.toNat - 48)) 0

/-- Decimal rendering of a natural number (Python `str` on a non-negative
int); the fuel, at least the number at every call, makes the recursion
structural. -/
def natDecGo : Nat → Nat → Str
  | 0, n => [Char.ofNat (48 + n % 10)]
  | fuel + 1, n =>
    if n < 10 then [Char.ofNat (48 + n)]
    else natDecGo fuel (n / 10) ++ [Char.ofNat (48 + n % 10)]

def natDec (n : Nat) : Str := natDecGo n n

/-- Python `f"{x:0.2f}"` of a non-negative amount given in exact cents (the
only amounts the modelled catalog produces; on those Python's binary float
formatting agrees). -/
def renderCents (x : ℤ) : Str :=
  let n : ℕ := x.toNat
  natDec (n / 100) ++ ['.'] ++ (if n % 100 < 10 then ['0'] else []) ++ natDec (n % 100)

/-- Python `", ".join`. -/
def joinComma : List Str → Str
  | [] => []
  | [a] => a
  | a :: b :: t => a ++ S ", " ++ joinComma (b :: t)

/-- Python `str.replace(lit, repl)`: replace all non-overlapping occurrences
left to right (no-op for an empty pattern, which the source never uses).
Fuel-structured: every step consumes at least one character. -/
def replaceAllGo (lit repl : Str) : Nat → Str → Str
  | 0, s => s
  | _ + 1, [] => []
  | fuel + 1, c :: t =>
    if lit ≠ [] ∧ begMatch lit (c :: t) = true then
      repl ++ replaceAllGo lit repl fuel ((c :: t).drop lit.length)
    else
      c :: replaceAllGo lit repl fuel t

def replaceAll (lit repl : Str) (s : Str) : Str := replaceAllGo lit repl s.length s

/-- A `\b` word boundary between two (optional) neighbouring characters. -/
def wordBd (a b : Option Char) : Bool :=
  (a.elim false isWordC) != (b.elim false isWordC)

/-- Core of `re.sub` with a `\b`-delimited literal word pattern, tracking the
previous character of the original string.  Fuel-structured: every step
consumes at least one character. -/
def subWordGo (lit repl : Str) : Nat → Option Char → Str → Str
  | 0, _, s => s
  | _ + 1, _, [] => []
  | fuel + 1, prev, c :: t =>
    if lit ≠ [] ∧ begMatch lit (c :: t) = true ∧
        wordBd prev (some c) = true ∧
        wordBd lit.getLast? ((c :: t).drop lit.length).head? = true then
      repl ++ subWordGo lit repl fuel lit.getLast? ((c :: t).drop lit.length)
    else
      c :: subWordGo lit repl fuel (some c) t

/-- `re.sub` of a `\b`-delimited literal word by `repl`, all occurrences,
left to right. -/
def subWordAll (lit repl s : Str) : Str := subWordGo lit repl s.length none s

/-- Does `re.search` of a `\b`-delimited literal word succeed? -/
def hasWordOccGo (lit : Str) (prev : Option Char) : Str → Bool
  | [] => false
  | c :: t =>
    (begMatch lit (c :: t) && wordBd prev (some c) &&
      wordBd lit.getLast? ((c :: t).drop lit.length).head?) ||
    hasWordOccGo lit (some c) t

def hasWordOcc (lit s : Str) : Bool := hasWordOccGo lit none s

/-- `re.sub` deleting a `\b`-delimited ordered alternation of literal words:
at each position the first alternative matching with boundaries on both
sides is removed.  Fuel-structured: the alternatives are non-empty words,
so every step consumes at least one character. -/
def dropWordAltGo (alts : List Str) : Nat → Option Char → Str → Str
  | 0, _, s => s
  | _ + 1, _, [] => []
  | fuel + 1, prev, c :: t =>
    match alts.find? (fun a =>
        !a.isEmpty && begMatch a (c :: t) && wordBd prev (some c) &&
        wordBd a.getLast? ((c :: t).drop a.length).head?) with
    | some a => dropWordAltGo alts fuel a.getLast? ((c :: t).drop a.length)
    | none => c :: dropWordAltGo alts fuel (some c) t

def dropWordAlt (alts : List Str) (s : Str) : Str := dropWordAltGo alts s.length none s

/-! ### Scanner combinators for the specialised regex patterns -/

/-- `p+` with greedy maximal munch: the matched run and the rest. -/
def plusRun (p : Char → Bool) (s : Str) : Option (Str × Str) :=
  if (s.takeWhile p).isEmpty then none else some (s.takeWhile p, s.dropWhile p)

/-- A literal, anchored at the start: the rest on success. -/
def litRun (lit s : Str) : Option Str :=
  if begMatch lit s then some (s.drop lit.length) else none

lemma takeWhile_dropWhile_len (p : Char → Bool) (s : Str) :
    (s.takeWhile p).length + (s.dropWhile p).length = s.length := by
  rw [← List.length_append, List.takeWhile_append_dropWhile]

lemma plusRun_lt {p : Char → Bool} {s a r : Str} (h : plusRun p s = some (a, r)) :
    r.length < s.length := by
  unfold plusRun at h
  split at h
  · exact Option.noConfusion h
  · rename_i hne
    simp only [Option.some.injEq, Prod.mk.injEq] at h
    have hlen := takeWhile_dropWhile_len p s
    have h1 : 1 ≤ (s.takeWhile p).length := by
      cases hh : s.takeWhile p with
      | nil => rw [hh] at hne; simp at hne
      | cons x xs => simp
    rw [← h.2]
    omega

lemma plusRun_le {p : Char → Bool} {s a r : Str} (h : plusRun p s = some (a, r)) :
    r.length ≤ s.length := le_of_lt (plusRun_lt h)

lemma litRun_le {lit s r : Str} (h : litRun lit s = some r) : r.length ≤ s.length := by
  unfold litRun at h
  split at h
  · simp only [Option.some.injEq] at h
    rw [← h]
    simp
  · exact Option.noConfusion h

/-- One match of the two-number pattern
`(\\d+)\\s+(\\w+)\\s+and\\s+(\\d+)\\s+(\\w+)\\s+(shawarma|wrap|sandwich|sandwiches)`
anchored at the start of the scanned suffix.  Every junction of the pattern
joins disjoint character classes, so greedy maximal munch is exact. -/
structure CMatch where
  g0 : Str
  q1 : Nat
  t1 : Str
  q2 : Nat
  t2 : Str
  itemType : Str
  rest : Str
deriving Repr, DecidableEq

def complexAlts : List Str := [S "shawarma", S "wrap", S "sandwich", S "sandwiches"]

/-- The first alternative of an ordered alternation of literals that matches
at the start (CPython tries alternatives left to right). -/
def altRun (alts : List Str) (s : Str) : Option (Str × Str) :=
  match alts.find? (fun a => begMatch a s) with
  | some a => some (a, s.drop a.length)
  | none => none

def matchComplexAt (s : Str) : Option CMatch :=
  match plusRun isDigitC s with
  | none => none
  | some (d1, r1) =>
  match plusRun isWSc r1 with
  | none => none
  | some (_, r2) =>
  match plusRun isWordC r2 with
  | none => none
  | some (w1, r3) =>
  match plusRun isWSc r3 with
  | none => none
  | some (_, r4) =>
  match litRun (S "and") r4 with
  | none => none
  | some r5 =>
  match plusRun isWSc r5 with
  | none => none
  | some (_, r6) =>
  match plusRun isDigitC r6 with
  | none => none
  | some (d2, r7) =>
  match plusRun isWSc r7 with
  | none => none
  | some (_, r8) =>
  match plusRun isWordC r8 with
  | none => none
  | some (w2, r9) =>
  match plusRun isWSc r9 with
  | none => none
  | some (_, r10) =>
  match altRun complexAlts r10 with
  | none => none
  | some (alt, r11) =>
    some { g0 := s.take (s.length - r11.length), q1 := digitsVal d1, t1 := w1,
           q2 := digitsVal d2, t2 := w2, itemType := alt, rest := r11 }

lemma altRun_le {alts : List Str} {s a r : Str} (h : altRun alts s = some (a, r)) :
    r.length ≤ s.length := by
  unfold altRun at h
  split at h
  · simp only [Option.some.injEq, Prod.mk.injEq] at h
    rw [← h.2]
    simp
  · exact Option.noConfusion h

lemma matchComplexAt_lt {s : Str} {m : CMatch} (h : matchComplexAt s = some m) :
    m.rest.length < s.length := by
  unfold matchComplexAt at h
  split at h <;> try exact Option.noConfusion h
  rename_i d1 r1 h1
  split at h <;> try exact Option.noConfusion h
  rename_i x2 r2 h2
  split at h <;> try exact Option.noConfusion h
  rename_i w1 r3 h3
  split at h <;> try exact Option.noConfusion h
  rename_i x4 r4 h4
  split at h <;> try exact Option.noConfusion h
  rename_i r5 h5
  split at h <;> try exact Option.noConfusion h
  rename_i x6 r6 h6
  split at h <;> try exact Option.noConfusion h
  rename_i d2 r7 h7
  split at h <;> try exact Option.noConfusion h
  rename_i x8 r8 h8
  split at h <;> try exact Option.noConfusion h
  rename_i w2 r9 h9
  split at h <;> try exact Option.noConfusion h
  rename_i x10 r10 h10
  split at h <;> try exact Option.noConfusion h
  rename_i alt r11 h11
  simp only [Option.some.injEq] at h
  have e1 := plusRun_lt h1
  have e2 := plusRun_le h2
  have e3 := plusRun_le h3
  have e4 := plusRun_le h4
  have e5 := litRun_le h5
  have e6 := plusRun_le h6
  have e7 := plusRun_le h7
  have e8 := plusRun_le h8
  have e9 := plusRun_le h9
  have e10 := plusRun_le h10
  have e11 := altRun_le h11
  have : m.rest = r11 := by rw [← h]
  rw [this]
  omega

/-- `re.finditer` of the two-number pattern: non-overlapping matches, left to
right, over the scanned string.  Fuel-structured: a match consumes at least
one character (`matchComplexAt_lt`), a miss advances by one. -/
def complexFindGo : Nat → Str → List CMatch
  | 0, _ => []
  | _ + 1, [] => []
  | fuel + 1, c :: t =>
    match matchComplexAt (c :: t) with
    | some m => m :: complexFindGo fuel m.rest
    | none => complexFindGo fuel t

def complexFind (s : Str) : List CMatch := complexFindGo s.length s

/-- `re.search(r"(?:^|\s)(\d+)(?:\s+)", q)`: the leftmost digit run that is
at the start or preceded by whitespace and followed by whitespace.  `ok`
records whether a match may begin at the current position. -/
def qtyScanGo (ok : Bool) : Str → Option Nat
  | [] => none
  | c :: t =>
    if ok && isDigitC c then
      if ((c :: t).dropWhile isDigitC).head?.elim false isWSc then
        some (digitsVal ((c :: t).takeWhile isDigitC))
      else qtyScanGo (isWSc c) t
    else qtyScanGo (isWSc c) t

def qtyScan (s : Str) : Option Nat := qtyScanGo true s

/-- `re.search(r"(\d+)\s+(.+)", segment)`: leftmost digit run followed by
whitespace and a non-empty remainder; when the whitespace run reaches the
end of the string the engine backtracks one whitespace character into
`(.+)`.  The embedded texts contain no newline, on which `.` would stop. -/
def segScan : Str → Option (Nat × Str)
  | [] => none
  | c :: t =>
    if isDigitC c then
      let ds := (c :: t).takeWhile isDigitC
      let r1 := (c :: t).dropWhile isDigitC
      let ws := r1.takeWhile isWSc
      let r2 := r1.dropWhile isWSc
      if ws.isEmpty then segScan t
      else if !r2.isEmpty then some (digitsVal ds, r2)
      else if 2 ≤ ws.length then some (digitsVal ds, [ws.getLast?.getD ' '])
      else none
    else segScan t

/-- The second alternative `\s+and\s+` of the segment-splitting pattern,
anchored at the start. -/
def delim2Run (s : Str) : Option Str :=
  match plusRun isWSc s with
  | none => none
  | some (_, r1) =>
  match litRun (S "and") r1 with
  | none => none
  | some r2 =>
  match plusRun isWSc r2 with
  | none => none
  | some (_, r3) => some r3

lemma delim2Run_lt {s r : Str} (h : delim2Run s = some r) : r.length < s.length := by
  unfold delim2Run at h
  split at h <;> try exact Option.noConfusion h
  rename_i x1 r1 h1
  split at h <;> try exact Option.noConfusion h
  rename_i r2 h2
  split at h <;> try exact Option.noConfusion h
  rename_i x3 r3 h3
  have e1 := plusRun_lt h1
  have e2 := litRun_le h2
  have e3 := plusRun_le h3
  simp only [Option.some.injEq] at h
  rw [← h]
  omega

/-- `re.split(r',\s*|\s+and\s+', q)`: at each position the first alternative
is tried first; the current segment is emitted at each delimiter.
Fuel-structured: a delimiter consumes at least one character
(`delim2Run_lt`), a miss advances by one. -/
def splitSegsGo : Nat → Str → Str → List Str
  | 0, acc, _ => [acc]
  | _ + 1, acc, [] => [acc]
  | fuel + 1, acc, c :: t =>
    if c == ',' then acc :: splitSegsGo fuel [] (t.dropWhile isWSc)
    else
      match delim2Run (c :: t) with
      | some r => acc :: splitSegsGo fuel [] r
      | none => splitSegsGo fuel (acc ++ [c]) t

def splitSegs (s : Str) : List Str := splitSegsGo s.length [] s

/-- The optional tail `(?:\s+not\s+(\d+))?` of the first correction pattern,
tried greedily: the captured number when its content matches. -/
def optNotTail (t : Str) : Option Nat :=
  match plusRun isWSc t with
  | none => none
  | some (_, a) =>
  match litRun (S "not") a with
  | none => none
  | some b =>
  match plusRun isWSc b with
  | none => none
  | some (_, c2) =>
  match plusRun isDigitC c2 with
  | none => none
  | some (ds, _) => some (digitsVal ds)

/-- `no\s+(\d+)\s+([^,]+?)(?:\s+not\s+(\d+))?` anchored at the start.  The
lazy `[^,]+?` is followed only by an optional group, so it captures exactly
one character; when that character is a comma or the string has ended, the
engine backtracks one character of the preceding `\s+` into the lazy group
(possible only when that run has length at least two). -/
def corr1At (s : Str) : Option (Nat × Str × Option Nat) :=
  match litRun (S "no") s with
  | none => none
  | some r1 =>
  match plusRun isWSc r1 with
  | none => none
  | some (_, r2) =>
  match plusRun isDigitC r2 with
  | none => none
  | some (d, r3) =>
  match plusRun isWSc r3 with
  | none => none
  | some (w2, r4) =>
    match r4 with
    | c :: t =>
      if c ≠ ',' then some (digitsVal d, [c], optNotTail t)
      else if 2 ≤ w2.length then some (digitsVal d, [w2.getLast?.getD ' '], optNotTail r4)
      else none
    | [] =>
      if 2 ≤ w2.length then some (digitsVal d, [w2.getLast?.getD ' '], optNotTail [])
      else none

/-- Leftmost search for the first correction pattern. -/
def corrSearch1 : Str → Option (Nat × Str × Option Nat)
  | [] => none
  | c :: t =>
    match corr1At (c :: t) with
    | some r => some r
    | none => corrSearch1 t

/-- The continuation `\s+not\s+(\d+)` that terminates the lazy group of the
second correction pattern. -/
def corr2Cont (s : Str) : Option Nat :=
  match plusRun isWSc s with
  | none => none
  | some (_, a) =>
  match litRun (S "not") a with
  | none => none
  | some b =>
  match plusRun isWSc b with
  | none => none
  | some (_, c2) =>
  match plusRun isDigitC c2 with
  | none => none
  | some (ds, _) => some (digitsVal ds)

/-- Lazy expansion of `([^,]+?)` until `\s+not\s+(\d+)` matches right after
it, for one fixed split of the preceding `\s+`: minimal non-empty prefix of
non-comma characters whose continuation matches. -/
def corr2Lazy (acc : Str) : Str → Option (Str × Nat)
  | [] => none
  | c :: t =>
    if c == ',' then none
    else
      match corr2Cont t with
      | some d2 => some (acc ++ [c], d2)
      | none => corr2Lazy (acc ++ [c]) t

/-- Backtracking of the greedy `\s+` into the lazy group: the engine first
commits the whole whitespace run, and when every lazy expansion fails it
gives the run's characters back one at a time (from the right) to the lazy
group, always keeping at least one consumed.  The first argument is the
reversed still-consumed part of the run; `[^,]` accepts the whitespace
given back. -/
def corr2Give : Str → Str → Option (Str × Nat)
  | [], _ => none
  | c :: t, rest =>
    match corr2Lazy [] rest with
    | some r => some r
    | none =>
      match t with
      | [] => none
      | _ :: _ => corr2Give t (c :: rest)

/-- `(\d+)\s+([^,]+?)\s+not\s+(\d+)` anchored at the start: the digit run is
maximal (a shorter one leaves a digit where `\s+` needs whitespace), then
the whitespace run is matched greedily and backtracked into the lazy group
character by character. -/
def corr2At (s : Str) : Option (Nat × Str × Nat) :=
  match plusRun isDigitC s with
  | none => none
  | some (d1, r1) =>
  match plusRun isWSc r1 with
  | none => none
  | some (w1, r2) =>
  match corr2Give w1.reverse r2 with
  | some (desc, d2) => some (digitsVal d1, desc, d2)
  | none => none

def corrSearch2 : Str → Option (Nat × Str × Nat)
  | [] => none
  | c :: t =>
    match corr2At (c :: t) with
    | some r => some r
    | none => corrSearch2 t

/-- The source tries the first correction pattern, then the second; only
groups 1 (the corrected quantity) and 2 (the item description) are used. -/
def corrSearch (tl : Str) : Option (Nat × Str) :=
  match corrSearch1 tl with
  | some (q, desc, _) => some (q, desc)
  | none =>
    match corrSearch2 tl with
    | some (q, desc, _) => some (q, desc)
    | none => none

/-- Continuation test `\s+word` for the lazy groups of the item-name
extraction patterns. -/
def lazyClassCont (word : Str) (s : Str) : Bool :=
  match plusRun isWSc s with
  | none => false
  | some (_, r) => begMatch word r

/-- Lazy expansion over a character class until `\s+word` matches. -/
def m12Go (cls : Char → Bool) (word : Str) (acc : Str) : Str → Option Str
  | [] => none
  | c :: t =>
    if cls c then
      if lazyClassCont word t then some (acc ++ [c]) else m12Go cls word (acc ++ [c]) t
    else none

/-- `re.search(r'^([A-Z][a-zA-Z\s]+?)\s+' + word, msg)`: the captured group. -/
def m12Match (word : Str) (s : Str) : Option Str :=
  match s with
  | [] => none
  | c :: t =>
    if isUpperC c then m12Go (fun x => isAlphaC x || isWSc x) word [c] t else none

/-- The greedy star `(?:\s+[A-Z][a-z]+)*`: the maximal matched text.
Fuel-structured: every iteration consumes whitespace plus a capitalised
word, at least two characters. -/
def m3StarGo : Nat → Str → Str → Str
  | 0, acc, _ => acc
  | fuel + 1, acc, s =>
    match plusRun isWSc s with
    | none => acc
    | some (w, r) =>
      match r with
      | c :: t =>
        if isUpperC c then
          match plusRun isLowerAlphaC t with
          | some (lo, r2) => m3StarGo fuel (acc ++ w ++ [c] ++ lo) r2
          | none => acc
        else acc
      | [] => acc

def m3Star (acc : Str) (s : Str) : Str := m3StarGo s.length acc s

/-- `re.search(r'^([A-Z][a-z]+(?:\s+[A-Z][a-z]+)*)', msg)`: the captured
group. -/
def m3Match (s : Str) : Option Str :=
  match s with
  | [] => none
  | c :: t =>
    if isUpperC c then
      match plusRun isLowerAlphaC t with
      | some (lo, r) => some ([c] ++ lo ++ m3Star [] r)
      | none => none
    else none

/-! ### Data model -/

structure MenuItem where
  name : Str
  price : ℤ
deriving Repr, DecidableEq

/-- The menu index: lowercase item name to item, in insertion order
(Python dicts preserve it; the scoring loops iterate in this order). -/
abbrev Menu := List (Str × MenuItem)

/-- Modelled from the spec: the business catalog `business_data.json`, from
which `_build_menu_index` builds `MENU_INDEX`, is not among the repository's
files.  Item names and prices are the ones the spec and the source quote
(the four wraps with their prices are listed verbatim in the
sandwich-choice response of `process_customer_message`; hummus at $9.50 and
a $3.50 soft drink are quoted in `answer_from_facts`). -/
def MENU : Menu :=
  [ (S "chicken shawarma wrap", { name := S "Chicken Shawarma Wrap", price := 1550 }),
    (S "beef shawarma wrap", { name := S "Beef Shawarma Wrap", price := 1600 }),
    (S "falafel wrap", { name := S "Falafel Wrap", price := 1400 }),
    (S "kafta wrap", { name := S "Kafta Wrap", price := 1625 }),
    (S "hummus", { name := S "Hummus", price := 950 }),
    (S "soft drinks", { name := S "Soft Drinks", price := 350 }) ]

def menuGet (menu : Menu) (k : Str) : Option MenuItem :=
  (menu.find? (fun p => p.1 == k)).map (fun p => p.2)

/-- A POS-style order line, as stored in `ConversationState.order_items`
(prices in exact cents). -/
structure OrderLine where
  name : Str
  quantity : Nat
  unit_price : ℤ
  total_price : ℤ
deriving Repr, DecidableEq

def mkLine (mi : MenuItem) (qty : Nat) : OrderLine :=
  { name := mi.name, quantity := qty, unit_price := mi.price,
    total_price := mi.price * (qty : ℤ) }

/-! ### Constant tables of the order-line extractor (`call_flow.py`) -/

/-- ASR mis-hearing replacements of `_parse_quantity_and_item`. -/
def asrSingle : List (Str × Str) :=
  [ (S "shore my", S "shawarma"), (S "shorma", S "shawarma"),
    (S "shwarma", S "shawarma"), (S "sandwhich", S "sandwich"),
    (S "sandwhiches", S "sandwiches"), (S "sandwhichs", S "sandwiches"),
    (S "fattouch", S "fattoush"), (S "fatoush", S "fattoush") ]

/-- ASR mis-hearing replacements of `_parse_multiple_items`. -/
def asrMulti : List (Str × Str) :=
  [ (S "shore my", S "shawarma"), (S "shorma", S "shawarma"),
    (S "shwarma", S "shawarma"), (S "sandwhich", S "sandwich"),
    (S "sandwhiches", S "sandwiches"), (S "sandwhichs", S "sandwiches") ]

def numberWords : List (Str × Nat) :=
  [ (S "one", 1), (S "two", 2), (S "three", 3), (S "four", 4), (S "five", 5),
    (S "six", 6), (S "seven", 7), (S "eight", 8), (S "nine", 9), (S "ten", 10) ]

/-- The alias table of `_parse_multiple_items`, in dict insertion order. -/
def itemAliases : List (Str × Str) :=
  [ (S "coke", S "soft drinks"), (S "cokes", S "soft drinks"),
    (S "coca cola", S "soft drinks"), (S "soda", S "soft drinks"),
    (S "sodas", S "soft drinks"), (S "soft drink", S "soft drinks"),
    (S "soft drinks", S "soft drinks"), (S "fries", S "french fries"),
    (S "french fries", S "french fries"), (S "side of fries", S "french fries"),
    (S "sides of fries", S "french fries"), (S "fattouch", S "fattoush"),
    (S "fatoush", S "fattoush"), (S "fattouch salad", S "fattoush"),
    (S "fatoush salad", S "fattoush"), (S "laban-up", S "laban"),
    (S "laban up", S "laban"), (S "labneh", S "labneh"), (S "labne", S "labneh"),
    (S "shawarma", S "chicken shawarma wrap"),
    (S "shawarmas", S "chicken shawarma wrap"),
    (S "beef shawarma", S "beef shawarma wrap"),
    (S "beef shawarmas", S "beef shawarma wrap"),
    (S "chicken shawarma", S "chicken shawarma wrap"),
    (S "chicken shawarmas", S "chicken shawarma wrap"),
    (S "shawarma sandwich", S "chicken shawarma wrap"),
    (S "chicken shawarma sandwich", S "chicken shawarma wrap"),
    (S "beef shawarma sandwich", S "beef shawarma wrap"),
    (S "lamb skewer", S "beef kabob plate"),
    (S "shish taouk", S "chicken kabob plate"),
    (S "shish taouk plate", S "chicken kabob plate"),
    (S "house burger", S "kafta wrap"),
    (S "vegetarian platter", S "mezze party tray"),
    (S "za'atar manakish", S "manakish"), (S "zaatar manakish", S "manakish"),
    (S "kibbeh nayyeh", S "fried kibbeh"), (S "mint lemonade", S "lemonade"),
    (S "turkish coffee", S "lebanese coffee") ]

/-- Extras not present in the menu (fallback items). -/
def extraItems : List (Str × MenuItem) :=
  [ (S "french fries", { name := S "French Fries", price := 500 }),
    (S "fries", { name := S "French Fries", price := 500 }) ]

def drinkWordsFallback : List Str :=
  [ S "coke", S "cokes", S "soda", S "sodas", S "soft drink", S "soft drinks" ]

def friesWordsFallback : List Str :=
  [ S "fries", S "french fries", S "side of fries", S "sides of fries" ]

/-! ### `_parse_quantity_and_item` -/

/-- `lname.replace("wrap", "").replace("sandwich", "").strip()`. -/
def coreOf (k : Str) : Str :=
  stripWS (replaceAll (S "sandwich") [] (replaceAll (S "wrap") [] k))

/-- One scoring pass of the single-item parser: longest core that occurs in
the text wins, strictly (first maximum in menu order); when `restrictWrap`
is set and the caller mentioned a wrap or sandwich, only wrap/sandwich
items compete. -/
def pqiBest (menu : Menu) (q : Str) (prefers restrictWrap : Bool) :
    Nat × Option (Str × MenuItem) :=
  menu.foldl (fun best p =>
    let core := coreOf p.1
    if core.isEmpty then best
    else if restrictWrap && prefers && !(hasSub (S "wrap") p.1) &&
        !(hasSub (S "sandwich") p.1) then best
    else if hasSub core q && best.1 < core.length then (core.length, some p)
    else best) ((0 : Nat), none)

def parse_quantity_and_item (menu : Menu) (text : Str) : Option OrderLine :=
  let q := asrSingle.foldl (fun s pr => replaceAll pr.1 pr.2 s) (lowerS text)
  let quantity :=
    match qtyScan q with
    | some n => n
    | none => ((numberWords.find? (fun pr => hasWordOcc pr.1 q)).map (fun pr => pr.2)).getD 1
  let prefers := hasSub (S "wrap") q || hasSub (S "sandwich") q
  let first := pqiBest menu q prefers true
  let best := match first.2 with
    | some _ => first
    | none => pqiBest menu q prefers false
  match best.2 with
  | some p => some (mkLine p.2 quantity)
  | none => none

/-! ### `_parse_multiple_items` -/

/-- The per-item score of the segment matcher. -/
def itemScore (desc descClean lname : Str) : Nat :=
  if hasSub descClean lname || hasSub desc lname then 100
  else if hasSub (S "beef shawarma") desc && hasSub (S "beef shawarma wrap") lname then 100
  else if hasSub (S "chicken shawarma") desc && hasSub (S "chicken shawarma wrap") lname then 100
  else
    let common := ((splitWS desc).dedup.filter (fun w => (splitWS lname).contains w)).length
    if 0 < common then
      common * 2
      + (if hasSub (S "hummus") desc && hasSub (S "hummus") lname then 10 else 0)
      + (if hasSub (S "fattoush") desc && hasSub (S "fattoush") lname then 10 else 0)
      + (if hasSub (S "shawarma") desc && hasSub (S "shawarma") lname then 5 else 0)
      + (if hasSub (S "beef") desc && hasSub (S "beef") lname then 3 else 0)
      + (if hasSub (S "chicken") desc && hasSub (S "chicken") lname then 3 else 0)
      + (if hasSub (S "soft drinks") desc && hasSub (S "soft drinks") lname then 10 else 0)
    else 0

def bestMenuMatch (menu : Menu) (desc descClean : Str) : Option (Str × MenuItem) :=
  (menu.foldl (fun best p =>
    let sc := itemScore desc descClean p.1
    if best.1 < sc then (sc, some p) else best) ((0 : Nat), none)).2

/-- The order lines one segment of the split text contributes. -/
def segToItems (menu : Menu) (seg0 : Str) : List OrderLine :=
  let seg := stripWS seg0
  if seg.isEmpty then [] else
  match segScan seg with
  | none => []
  | some (qty, descRaw) =>
    if begMatch (S "__processed") seg then [] else
    let desc0 := lowerS (stripWS descRaw)
    let desc := itemAliases.foldl
      (fun d pr => if hasWordOcc pr.1 d then subWordAll pr.1 pr.2 d else d) desc0
    let dc0 := if !(hasSub (S "shawarma") desc) && !(hasSub (S "wrap") desc) then
        stripWS (dropWordAlt
          [S "plate", S "sandwich", S "sandwiches", S "wrap", S "wraps"] desc)
      else desc
    let descClean := if dc0.isEmpty then desc else dc0
    match bestMenuMatch menu desc descClean with
    | some p => [mkLine p.2 qty]
    | none =>
      if drinkWordsFallback.any (fun w => hasSub w desc) then
        match menuGet menu (S "soft drinks") with
        | some mi => [mkLine mi qty]
        | none => [{ name := S "Soft Drinks", quantity := qty, unit_price := 350,
                     total_price := 350 * (qty : ℤ) }]
      else if friesWordsFallback.any (fun w => hasSub w desc) then
        match extraItems.find? (fun pr => hasSub pr.1 desc || hasSub pr.1 descClean) with
        | some pr => [mkLine pr.2 qty]
        | none => []
      else []

/-- The order lines one two-number match contributes (the inner loop over
the menu, appending a line for each type that occurs in an item name
together with the shared suffix). -/
def complexItemsOf (menu : Menu) (m : CMatch) : List OrderLine :=
  menu.foldl (fun acc p =>
    acc
    ++ (if hasSub m.t1 p.1 && hasSub m.itemType p.1 then [mkLine p.2 m.q1] else [])
    ++ (if hasSub m.t2 p.1 && hasSub m.itemType p.1 then [mkLine p.2 m.q2] else [])) []

def parse_multiple_items (menu : Menu) (text : Str) : List OrderLine :=
  let q0 := asrMulti.foldl (fun s pr => replaceAll pr.1 pr.2 s) (lowerS text)
  let cms := complexFind q0
  let complexItems := cms.foldl (fun acc m => acc ++ complexItemsOf menu m) []
  let q1 := cms.foldl (fun s m => replaceAll m.g0 [] s) q0
  let segItems := (splitSegs q1).foldl (fun acc sg => acc ++ segToItems menu sg) []
  let items := complexItems ++ segItems
  if items.isEmpty then
    match parse_quantity_and_item menu text with
    | some i => [i]
    | none => []
  else items

/-! ### `_summarize_order` -/

def summarize_order (items : List OrderLine) : Str :=
  if items.isEmpty then S "I don't have an order on file yet for this call."
  else
    S "So far I have: "
    ++ joinComma (items.map (fun l => natDec l.quantity ++ [' '] ++ l.name))
    ++ S ". The estimated total is $"
    ++ renderCents (items.foldl (fun a l => a + l.total_price) 0)
    ++ S " before tax and fees. Would you like to add anything else or is that everything?"

/-! ### Intent classification (`intents.py`) -/

inductive Intent where
  | greeting | hours | menu | pricing | reservation | direction
  | general_question | goodbye | unknown
deriving Repr, DecidableEq

/-- The `Intent(str)` mapping of the enum values. -/
def intentValues : List (Str × Intent) :=
  [ (S "greeting", Intent.greeting), (S "hours", Intent.hours),
    (S "menu", Intent.menu), (S "pricing", Intent.pricing),
    (S "reservation", Intent.reservation), (S "direction", Intent.direction),
    (S "general_question", Intent.general_question),
    (S "goodbye", Intent.goodbye), (S "unknown", Intent.unknown) ]

def intentOfStr (s : Str) : Option Intent :=
  (intentValues.find? (fun p => p.1 == s)).map (fun p => p.2)

/-- `INTENT_KEYWORDS`, in dict insertion order. -/
def INTENT_KEYWORDS : List (Intent × List Str) :=
  [ (Intent.greeting, [S "hello", S "hi", S "hey", S "good morning",
      S "good afternoon", S "good evening"]),
    (Intent.hours, [S "hours", S "open", S "closed", S "when", S "time",
      S "available", S "operating"]),
    (Intent.menu, [S "menu", S "food", S "dish", S "drink", S "special",
      S "item", S "serve", S "offer"]),
    (Intent.pricing, [S "price", S "cost", S "how much", S "expensive",
      S "cheap", S "dollar", S "$"]),
    (Intent.reservation, [S "reservation", S "reserve", S "table", S "book",
      S "appointment", S "availability"]),
    (Intent.direction, [S "location", S "address", S "where", S "directions",
      S "find", S "map"]),
    (Intent.goodbye, [S "bye", S "goodbye", S "thanks", S "thank you",
      S "see you", S "later"]) ]

/-- `classify_intent_rule_based`: first intent (in table order) one of whose
keywords occurs in the lowercased text, else GENERAL_QUESTION. -/
def classify_intent_rule_based (text : Str) : Intent :=
  ((INTENT_KEYWORDS.find? (fun p =>
    p.2.any (fun k => hasSub k (lowerS text)))).map (fun p => p.1)).getD
    Intent.general_question

/-- `classify_intent_llm`: the LLM boundary is an oracle that either raises
(any exception anywhere in the tier, caught by its `try`) or returns the
reply text; a reply that does not name an enum value yields UNKNOWN. -/
def classify_intent_llm (llmReply : Except Unit Str) : Intent :=
  match llmReply with
  | Except.error _ => Intent.unknown
  | Except.ok raw => (intentOfStr (lowerS (stripWS raw))).getD Intent.unknown

/-- `classify_intent(text, method="auto")`: the ML tier is an oracle that is
`none` when no trained classifier is available or its load/predict raises
(the `try` around step 1 turns both into falling through). -/
def classify_intent_auto (ml : Option (Str → Intent)) (llmReply : Except Unit Str)
    (text : Str) : Intent :=
  match ml with
  | some f => f text
  | none =>
    let r := classify_intent_rule_based text
    if r ≠ Intent.general_question then r else classify_intent_llm llmReply

/-! ### Conversation state (`ConversationState`) -/

inductive Role where
  | user | assistant
deriving Repr, DecidableEq

structure Msg where
  role : Role
  content : Str
deriving Repr, DecidableEq

structure TicketLine where
  name : Str
  quantity : Nat
  line_total : ℤ
deriving Repr, DecidableEq

structure Ticket where
  items : List TicketLine
  total : ℤ
  note : Str
  status : Str
deriving Repr, DecidableEq

/-- The per-session state (timestamps and ids, which no claim mentions, are
omitted). -/
structure Conv where
  messages : List Msg
  current_intent : Option Intent := none
  order_items : List OrderLine := []
  kitchen_ticket : Option Ticket := none
deriving Repr, DecidableEq

def addMsg (c : Conv) (r : Role) (content : Str) : Conv :=
  { c with messages := c.messages ++ [{ role := r, content := content }] }

def freshConv : Conv := { messages := [] }

/-! ### Constant phrase tables of `process_customer_message` -/

def confirmationWords : List Str :=
  [ S "yes", S "yeah", S "yep", S "sure", S "ok", S "okay", S "add it",
    S "add that", S "yes please", S "yes add" ]

def repeatPhrases : List Str :=
  [ S "what was my order", S "repeat my order", S "what did i order",
    S "read back my order", S "recap my order" ]

def orderPhrases : List Str :=
  [ S "can i make an order", S "can i place an order", S "i want to order",
    S "i'd like to order", S "id like to order", S "i would like to order",
    S "would like to order", S "can i order", S "i want to place an order",
    S "how do i order", S "place an order", S "make an order",
    S "like to make an order", S "like to place an order",
    S "want to make an order", S "want to place an order" ]

def orderLikeKeywords : List Str :=
  [ S "order", S "pickup", S "takeout", S "shawarma", S "wrap", S "sandwich",
    S "kebab", S "kabob", S "tray", S "mixed grill", S "kabob", S "hummus",
    S "falafel", S "tabbouleh", S "fattoush", S "baklava", S "fries",
    S "coke", S "soda", S "soft drink" ]

def unrelatedKeywords : List Str :=
  [ S "weather", S "temperature", S "rain", S "snow", S "forecast", S "sunny",
    S "cloudy", S "news", S "sports", S "politics", S "stock", S "crypto",
    S "bitcoin", S "movie", S "tv show", S "netflix", S "youtube",
    S "streaming", S "recipe", S "cooking", S "how to cook", S "how to make",
    S "joke", S "tell me a joke", S "funny", S "entertainment" ]

def endPhrases : List Str :=
  [ S "that's all", S "that is all", S "that's it", S "that will be all",
    S "no that's it", S "no that's all", S "no that's everything",
    S "i'm done", S "nothing else", S "we're good", S "we are good",
    S "that's everything", S "yes that's it", S "yes that's all" ]

def correctionKeywords : List Str :=
  [ S "not", S "not 1", S "not one", S "wrong", S "incorrect", S "should be" ]

def repeatHit (tl : Str) : Bool := repeatPhrases.any (fun p => hasSub p tl)

def orderPhraseHit (tl : Str) : Bool := orderPhrases.any (fun p => hasSub p tl)

def orderKeywordHit (tl : Str) : Bool := orderLikeKeywords.any (fun k => hasSub k tl)

def unrelatedHit (tl : Str) : Bool := unrelatedKeywords.any (fun k => hasSub k tl)

def endPhraseHit (tl : Str) : Bool := endPhrases.any (fun p => hasSub p tl)

def isCorrectionTurn (tl : Str) : Bool := correctionKeywords.any (fun w => hasSub w tl)

def isConfText (tl : Str) : Bool :=
  confirmationWords.any (fun w => hasSub w tl) && (splitWS tl).length ≤ 3

/-! ### Fixed response texts -/

def qSuffix : Str := S " Would you like to add anything else or is that everything?"

def orderPromptResponse : Str :=
  S "Absolutely! I'd be happy to help you place an order. What would you like to order today? You can tell me the items and quantities, for example, '2 chicken shawarma wraps' or 'a mixed grill plate'."

def addPromptResponse : Str :=
  S "I'd be happy to help you add items to your order. What would you like to add?"

def unrelatedResponse : Str :=
  S "I'm here to help with questions about Cedar Garden Lebanese Kitchen - our menu, hours, reservations, orders, and location. I can't help with general questions like weather, news, or entertainment. What can I help you with regarding our restaurant?"

def sandwichChoiceResponse (quantity : Nat) : Str :=
  S "Great! I'd be happy to help you order " ++ natDec quantity ++ [' ']
  ++ (if quantity = 1 then S "sandwich" else S "sandwiches")
  ++ S ". Which type would you like? We have:\n1. Chicken Shawarma Wrap - $15.50\n2. Beef Shawarma Wrap - $16.00\n3. Falafel Wrap - $14.00\n4. Kafta Wrap - $16.25\nJust let me know how many of each you'd like!"

def orderTotal (items : List OrderLine) : ℤ :=
  items.foldl (fun a l => a + l.total_price) 0

def itemsText (items : List OrderLine) : Str :=
  joinComma (items.map (fun l => natDec l.quantity ++ [' '] ++ l.name))

/-- The closing script of a finalized order. -/
def closingScript (items : List OrderLine) : Str :=
  S "Perfect! Your order is confirmed. You have: " ++ itemsText items
  ++ S ". The estimated total is $" ++ renderCents (orderTotal items)
  ++ S " before tax and fees. Your order will be ready for pickup in approximately 25-30 minutes. We're located at 1840 Cedar Grove Ave, Fullerton, CA 92831. Thank you for choosing Cedar Garden Lebanese Kitchen!"

def fallbackClosing : Str :=
  S "Perfect, we've got your request noted. If you need to make any changes or have questions, please call us at (714) 555-8734. Thank you for calling Cedar Garden, and have a wonderful day!"

/-! ### `_get_order_followup_question` -/

def anySub (ws : List Str) (s : Str) : Bool := ws.any (fun w => hasSub w s)

/-- The follow-up question for the most recently added item (`orderLen` is
`len(conversation.order_items)` at call time). -/
def followupFor (itemName : Str) (orderLen : Nat) : Option Str :=
  let il := lowerS itemName
  if hasSub (S "shawarma") il || (hasSub (S "chicken") il && hasSub (S "wrap") il)
      || (hasSub (S "beef") il && hasSub (S "wrap") il) then
    some (S "Would you like it with extra garlic sauce (toum) or spicy chili paste?")
  else if hasSub (S "soup") il || hasSub (S "lentil") il then
    some (S "Would you like a side of pita chips with that?")
  else if hasSub (S "skewer") il || (hasSub (S "lamb") il && hasSub (S "skewer") il) then
    some (S "That's a la carte. Is the skewer to be cooked medium, medium-well, or well done?")
  else if hasSub (S "falafel") il && (hasSub (S "wrap") il || hasSub (S "sandwich") il) then
    some (S "Is this for immediate pickup, or would you like to schedule a time?")
  else if hasSub (S "vegetarian platter") il || hasSub (S "vegetarian plate") il then
    some (S "Which two vegetarian pastries would you like included? We have cheese roll, spinach pie, and more.")
  else if hasSub (S "shish taouk") il
      || (hasSub (S "chicken") il && hasSub (S "plate") il && hasSub (S "kabob") il) then
    some (S "Your plate comes with rice and your choice of salad (tabbouleh, fattoush, or simple garden). Which would you prefer?")
  else if hasSub (S "manakish") il || hasSub (S "za'atar") il then
    some (S "Would you like any additions like tomato and mint?")
  else if hasSub (S "burger") il || (hasSub (S "kafta") il && hasSub (S "burger") il) then
    some (S "Our burger uses a kafta blend patty. What cheese and toppings would you prefer?")
  else if hasSub (S "tabbouleh") il && (hasSub (S "large") il || hasSub (S "big") il) then
    some (S "Would you like to add any protein to that, like grilled halloumi or chicken?")
  else if hasSub (S "arak") il then
    some (S "Would you like that on the rocks with water?")
  else if hasSub (S "turkish coffee") il
      || (hasSub (S "coffee") il && hasSub (S "turkish") il) then
    some (S "How would you like it: plain, medium sweet, or very sweet?")
  else if hasSub (S "batata") il || (hasSub (S "spicy") il && hasSub (S "potato") il) then
    some (S "Do you want that regular spice or the extra-hot version?")
  else if hasSub (S "feast") il
      || (hasSub (S "family") il && (hasSub (S "4") il || hasSub (S "four") il)) then
    some (S "The 'Mezze Experience' feeds 4 with 6 mezze items. Is that suitable, or should we build a custom order?")
  else if hasSub (S "shawarma") il && hasSub (S "plate") il
      && anySub [S "two", S "2", S "three", S "3"] il then
    some (S "What sides would you like for the plates: rice or fries?")
  else if hasSub (S "sambousek") il then
    some (S "We offer beef and lamb sambousek. How many of each would you like?")
  else if hasSub (S "kibbeh nayyeh") il && (hasSub (S "large") il || hasSub (S "big") il) then
    some (S "A large platter serves 6-8 people. When is the earliest you need to pick it up for freshness?")
  else if hasSub (S "baklava") il && anySub [S "20", S "dozen", S "tray"] il then
    some (S "That is a medium tray. Would you like it packaged with a serving utensil?")
  else if 2 < orderLen && hasSub (S "mixed grill") il then
    some (S "Do you want the mixed grill meats separated, or all together on one platter?")
  else if hasSub (S "kids meal") il || (hasSub (S "kids") il && hasSub (S "meal") il) then
    some (S "What drinks and sides would you like for the kids' meals?")
  else if (hasSub (S "pita") il && anySub [S "10", S "dozen", S "large"] il)
      || (hasSub (S "labneh") il && hasSub (S "kilo") il) then
    some (S "Would you like the labneh seasoned with olive oil and za'atar?")
  else if hasSub (S "manakish") il && anySub [S "four", S "4", S "different"] il then
    some (S "We have Za'atar, Cheese, Kishk, and Spicy Sujuk. Which would you like?")
  else if hasSub (S "pitcher") il && hasSub (S "lemonade") il then
    some (S "Will this be sparkling or still lemonade?")
  else if anySub [S "6 people", S "six people", S "sharing", S "what's a good way"] il then
    some (S "We recommend our 'Family Mixed Grill' (serves 6) plus three mezze appetizers. Would you like to hear the suggested mezze?")
  else none

/-! ### The "yes"-confirmation branch -/

def lastAssistantMsg (msgs : List Msg) : Option Str :=
  ((msgs.reverse.find? (fun m => m.role == Role.assistant))).map (fun m => m.content)

/-- Item-name extraction from the previous assistant message (patterns 1-3). -/
def extractOfferName (menu : Menu) (la : Str) : Option Str :=
  match m12Match (S "costs") la with
  | some nm => some (stripWS nm)
  | none =>
  match m12Match (S "is") la with
  | some nm => some (stripWS nm)
  | none =>
  match m3Match la with
  | some nm0 =>
    let potential := stripWS nm0
    if menu.any (fun p => hasSub (lowerS potential) p.1 || hasSub p.1 (lowerS potential)) then
      some potential
    else none
  | none => none

/-- Merge one unit of the offered item into the order (first line of the
same canonical name, else append). -/
def mergeConfirmGo (p : OrderLine) : List OrderLine → (List OrderLine × Bool)
  | [] => ([], false)
  | e :: rest =>
    if e.name == p.name then
      ({ e with
          quantity := e.quantity + 1,
          total_price := ((e.quantity + 1 : Nat) : ℤ) * e.unit_price } :: rest, true)
    else
      let r := mergeConfirmGo p rest
      (e :: r.1, r.2)

def mergeConfirm (items : List OrderLine) (p : OrderLine) : List OrderLine :=
  let r := mergeConfirmGo p items
  if r.2 then r.1 else items ++ [p]

/-- The pending-confirmation branch: `some (state', response)` when it
returns early, `none` when it falls through. -/
def confirmationStep (menu : Menu) (st : Conv) (tl : Str) : Option (Conv × Str) :=
  match lastAssistantMsg st.messages with
  | none => none
  | some la =>
    if la.isEmpty then none
    else if !(isConfText tl) then none
    else
      let ml := lowerS la
      if hasSub (S "would you like to add") ml || hasSub (S "add.*to your order") ml then
        let itemName := extractOfferName menu la
        let found : Option (Str × MenuItem) := match itemName with
          | some nm =>
            if nm.isEmpty then none
            else menu.find? (fun p => hasSub (lowerS nm) p.1 || hasSub p.1 (lowerS nm))
          | none => none
        match found with
        | some p =>
          let parsed : OrderLine :=
            { name := p.2.name, quantity := 1, unit_price := p.2.price,
              total_price := p.2.price }
          let items2 := mergeConfirm st.order_items parsed
          let resp := summarize_order items2 ++ qSuffix
          some (addMsg { st with order_items := items2 } Role.assistant resp, resp)
        | none =>
          if hasSub (S "would you like to add") ml then
            let resp := if !st.order_items.isEmpty then summarize_order st.order_items ++ qSuffix
              else addPromptResponse
            some (addMsg st Role.assistant resp, resp)
          else none
      else none

/-! ### The quantity-correction shorthand branch -/

/-- The local alias table of the correction branch (plain substring
replacement, no word boundaries), in dict insertion order. -/
def corrAliasesLocal : List (Str × Str) :=
  [ (S "coke", S "soft drinks"), (S "cokes", S "soft drinks"),
    (S "soda", S "soft drinks"), (S "soft drink", S "soft drinks"),
    (S "soft drinks", S "soft drinks"), (S "fries", S "french fries"),
    (S "french fries", S "french fries"), (S "side of fries", S "french fries"),
    (S "sides of fries", S "french fries") ]

def corrApplyAliases (desc : Str) : Str :=
  corrAliasesLocal.foldl (fun d pr => if hasSub pr.1 d then replaceAll pr.1 pr.2 d else d) desc

/-- Replace the quantity of the first existing line matching the extracted
description (substring either way, or at least one shared word). -/
def corrUpdateFirst (qty : Nat) (desc : Str) : List OrderLine → Option (List OrderLine)
  | [] => none
  | e :: rest =>
    let inl := lowerS e.name
    let dl := lowerS desc
    if hasSub dl inl || hasSub inl dl ||
        (splitWS dl).any (fun w => (splitWS inl).contains w) then
      some ({ e with
               quantity := qty,
               total_price := (qty : ℤ) * e.unit_price } :: rest)
    else
      (corrUpdateFirst qty desc rest).map (fun r => e :: r)

def correctionStep (st : Conv) (tl : Str) : Option (Conv × Str) :=
  match corrSearch tl with
  | none => none
  | some (qty, descRaw) =>
    if st.order_items.isEmpty then none
    else
      let desc := corrApplyAliases (stripWS descRaw)
      match corrUpdateFirst qty desc st.order_items with
      | none => none
      | some items2 =>
        let resp := summarize_order items2 ++ qSuffix
        some (addMsg { st with order_items := items2 } Role.assistant resp, resp)

/-! ### Order-item merge of the parse branch -/

def parseMergeGo (isCorr : Bool) (p : OrderLine) :
    List OrderLine → (List OrderLine × Bool)
  | [] => ([], false)
  | e :: rest =>
    if e.name == p.name then
      if isCorr then
        ({ e with
            quantity := p.quantity,
            total_price := (p.quantity : ℤ) * e.unit_price } :: rest, true)
      else
        ({ e with
            quantity := e.quantity + p.quantity,
            total_price := ((e.quantity + p.quantity : Nat) : ℤ) * e.unit_price } :: rest, true)
    else
      let r := parseMergeGo isCorr p rest
      (e :: r.1, r.2)

/-- One step of the merge loop, tracking `last_added_item` (set only when a
line is appended). -/
def parseMergeStep (isCorr : Bool) (acc : List OrderLine × Option Str)
    (p : OrderLine) : List OrderLine × Option Str :=
  let r := parseMergeGo isCorr p acc.1
  if r.2 then (r.1, acc.2) else (acc.1 ++ [p], some p.name)

def mergeParsed (isCorr : Bool) (ps : List OrderLine)
    (items : List OrderLine) : List OrderLine × Option Str :=
  ps.foldl (parseMergeStep isCorr) (items, none)

/-! ### The cascade -/

/-- `re.search(r"(\d+)\s+(?:sandwich|sandwiches|wrap|wraps)", text_lower)`. -/
def sandwichQtyAt (s : Str) : Option Nat :=
  match plusRun isDigitC s with
  | none => none
  | some (ds, r1) =>
  match plusRun isWSc r1 with
  | none => none
  | some (_, r2) =>
    if [S "sandwich", S "sandwiches", S "wrap", S "wraps"].any
        (fun a => begMatch a r2) then some (digitsVal ds)
    else none

def sandwichQtyScan : Str → Option Nat
  | [] => none
  | c :: t =>
    match sandwichQtyAt (c :: t) with
    | some r => some r
    | none => sandwichQtyScan t

def sandwichWordHit (tl : Str) : Bool :=
  hasSub (S "sandwich") tl || hasSub (S "sandwiches") tl ||
  hasSub (S "wrap") tl || hasSub (S "wraps") tl

/-- The order lines parsed for the turn: the multi-item extractor with the
single-item fallback, attempted only when an order-indicating keyword is
present. -/
def parsedTurnItems (menu : Menu) (tl text : Str) : List OrderLine :=
  if orderKeywordHit tl then
    let p := parse_multiple_items menu text
    if p.isEmpty then
      match parse_quantity_and_item menu text with
      | some i => [i]
      | none => []
    else p
  else []

/-- External collaborator boundaries consumed by the cascade.  The fast-fact
and intent-template resolvers read `business_data.json`, which is not among
the repository's files; they and the follow-up-mapping cache and the
retrieval+generation collaborator are modelled from the spec as functions
from the turn's text (and intent / history) to an optional response. -/
structure Oracles where
  facts : Str → Option Str
  followupMap : Str → Option Str
  intentAns : Str → Intent → Option Str
  rag : Str → List Msg → Str × Str

/-- Oracles on which every fast path misses (the collaborators of a bare
deployment: no business data, no mapping file, a generation collaborator
returning a fixed reply). -/
def noOracles : Oracles :=
  { facts := fun _ => none, followupMap := fun _ => none,
    intentAns := fun _ _ => none, rag := fun _ _ => (S "", S "llm_gpt4o_mini") }

/-- The outcome of the cascade body: `early` carries a state that already
holds the turn's assistant message and returns without the session-ending
check; `flow` reaches the end of the cascade (assistant message not yet
appended), carrying response, source and whether the RAG collaborator was
invoked. -/
inductive Stage where
  | early : Conv → Str → Str → Stage
  | flow : Conv → Str → Str → Bool → Stage
deriving Repr, DecidableEq

def lastN (n : Nat) (l : List Msg) : List Msg := l.drop (l.length - n)

/-- Branches 7-11: unrelated-topic filter, fast facts, follow-up mappings,
intent templates, retrieval+LLM. -/
def elseChain (orc : Oracles) (intent : Intent) (st : Conv) (tl text : Str) : Stage :=
  if unrelatedHit tl then
    Stage.flow st unrelatedResponse (S "template_unrelated") false
  else
    match orc.facts text with
    | some d => Stage.flow st d (S "template_facts") false
    | none =>
      match orc.followupMap text with
      | some f => Stage.flow st f (S "template_followup_mappings") false
      | none =>
        match orc.intentAns text intent with
        | some a => Stage.flow st a (S "template_intent") false
        | none =>
          let rr := orc.rag text (lastN 4 st.messages)
          Stage.flow st rr.1 rr.2 true

/-- The parse branch's successful outcome: merge the parsed lines into the
order and attach the follow-up question keyed on the last appended item. -/
def parseFlow (menu : Menu) (st : Conv) (tl text : Str) : Stage :=
  let m := mergeParsed (isCorrectionTurn tl) (parsedTurnItems menu tl text) st.order_items
  let osum := summarize_order m.1
  let resp := match m.2 with
    | some nm =>
      match followupFor nm m.1.length with
      | some f => osum ++ [' '] ++ f
      | none => osum
    | none => osum
  Stage.flow { st with order_items := m.1 } resp (S "template_order_parsed") false

/-- Branches 5-11: item extraction and merge, the bare sandwich/wrap count
prompt (an early return), then the else-chain. -/
def parseBranch (menu : Menu) (orc : Oracles) (intent : Intent) (st : Conv)
    (tl text : Str) : Stage :=
  if !(parsedTurnItems menu tl text).isEmpty then parseFlow menu st tl text
  else if orderKeywordHit tl && sandwichWordHit tl then
    match sandwichQtyScan tl with
    | some qty =>
      Stage.early (addMsg st Role.assistant (sandwichChoiceResponse qty))
        (sandwichChoiceResponse qty) (S "template_sandwich_choice")
    | none => elseChain orc intent st tl text
  else elseChain orc intent st tl text

/-- The decision cascade of `process_customer_message`, after the user
message was appended and the intent stored. -/
def cascade (menu : Menu) (orc : Oracles) (intent : Intent) (st : Conv)
    (tl text : Str) : Stage :=
  match confirmationStep menu st tl with
  | some cr => Stage.early cr.1 cr.2 (S "template_order_parsed")
  | none =>
  match correctionStep st tl with
  | some cr => Stage.early cr.1 cr.2 (S "template_order_parsed")
  | none =>
  if repeatHit tl then
    Stage.flow st (summarize_order st.order_items) (S "template_order_repeat") false
  else if orderPhraseHit tl then
    if !st.order_items.isEmpty then
      Stage.flow st
        (summarize_order st.order_items ++ S " Would you like to add anything else to your order?")
        (S "template_order_summary") false
    else
      Stage.flow st orderPromptResponse (S "template_order_prompt") false
  else parseBranch menu orc intent st tl text

/-- The kitchen-ticket snapshot built on finalization. -/
def buildTicket (items : List OrderLine) : Ticket :=
  { items := items.map (fun l =>
      { name := l.name, quantity := l.quantity, line_total := l.total_price }),
    total := orderTotal items,
    note := S "Pickup in ~25–30 minutes",
    status := S "pending" }

/-- Append the assistant response, then the session-ending check: an end
phrase overrides the response with a closing script in place (and, with a
non-empty order, finalizes the kitchen ticket). -/
def finalizePhase (st : Conv) (resp src tl : Str) : Conv × Str × Str :=
  let st1 := addMsg st Role.assistant resp
  if endPhraseHit tl then
    if !st1.order_items.isEmpty then
      let resp2 := closingScript st1.order_items
      ({ st1 with
          kitchen_ticket := some (buildTicket st1.order_items),
          messages := st1.messages.dropLast ++ [{ role := Role.assistant, content := resp2 }] },
       resp2, S "template_order_finalized")
    else
      ({ st1 with
          messages := st1.messages.dropLast ++ [{ role := Role.assistant, content := fallbackClosing }] },
       fallbackClosing, S "template_order_closing")
  else (st1, resp, src)

structure TurnOut where
  conv : Conv
  response : Str
  source : Str
  ragUsed : Bool
deriving Repr, DecidableEq

/-- `process_customer_message` on its non-exception path: append the user
message, classify (the intent is an input, the classifier cascade being
embedded separately), run the cascade, append the assistant message and
apply the session-ending override.  `log_order` only writes to an external
log and is dropped. -/
def process_customer_message (menu : Menu) (orc : Oracles) (intent : Intent)
    (st0 : Conv) (text : Str) : TurnOut :=
  let st : Conv := { addMsg st0 Role.user text with current_intent := some intent }
  let tl := lowerS text
  match cascade menu orc intent st tl text with
  | Stage.early c r s => { conv := c, response := r, source := s, ragUsed := false }
  | Stage.flow c r s rag? =>
    let f := finalizePhase c r s tl
    { conv := f.1, response := f.2.1, source := f.2.2, ragUsed := rag? }

/-! ### Auxiliary definitions for the theorems: witness states, the
parse-route predicate, quantity bookkeeping and the ledger invariant -/

def c5State : Conv :=
  { messages := [],
    order_items := [{ name := S "Chicken Shawarma Wrap", quantity := 1,
                      unit_price := 1550, total_price := 1550 }] }

def c5Flow : Conv :=
  { messages := [{ role := Role.user, content := S "that is all" }],
    current_intent := some Intent.general_question,
    order_items := [{ name := S "Chicken Shawarma Wrap", quantity := 1,
                      unit_price := 1550, total_price := 1550 }] }

def c9State : Conv :=
  { messages := [],
    order_items := [{ name := S "Hummus", quantity := 2, unit_price := 950,
                      total_price := 1900 }] }

/-- The quantity of the (first) line of canonical name `n`, 0 when absent. -/
def qtyOf (n : Str) (items : List OrderLine) : Nat :=
  ((items.find? (fun l => l.name == n)).map (fun l => l.quantity)).getD 0

/-- How many lines carry the name `n`. -/
def countNamed (n : Str) (items : List OrderLine) : Nat :=
  (items.filter (fun l => l.name == n)).length

/-- A turn that the cascade routes into the order-item extraction branch:
not a short affirmation, no correction-shorthand regex match, no repeat or
want-to-order phrase, and the extractor finds at least one line (which
requires an order-indicating keyword). -/
def parsePathTurn (menu : Menu) (text : Str) : Bool :=
  !(isConfText (lowerS text)) && (corrSearch (lowerS text)).isNone &&
  !(repeatHit (lowerS text)) && !(orderPhraseHit (lowerS text)) &&
  !(parsedTurnItems menu (lowerS text) text).isEmpty

/-- The total quantity the turn's parsed items give to the name `n`. -/
def turnQty (menu : Menu) (n : Str) (text : Str) : Nat :=
  (((parsedTurnItems menu (lowerS text) text).filter (fun l => l.name == n)).map
    (fun l => l.quantity)).sum

/-- One session-step: process a turn and keep the conversation. -/
def turnStep (menu : Menu) (orc : Oracles) (intent : Intent) (st : Conv)
    (text : Str) : Conv :=
  (process_customer_message menu orc intent st text).conv

def c1Name : Str := S "Chicken Shawarma Wrap"

def c1TextsAdd : List Str := [S "2 chicken shawarma wraps", S "1 chicken shawarma wrap"]

def c1TextsCorr : List Str :=
  [S "2 chicken shawarma wraps", S "wrong, make it 5 chicken shawarma wraps"]

/-- A well-formed POS line: the total is quantity times unit price and the
prices are non-negative.  (The parsers accept an explicit quantity of 0, so
positivity of the quantity is not an invariant; see the counterexample.) -/
def wfLine (l : OrderLine) : Prop :=
  l.total_price = (l.quantity : ℤ) * l.unit_price ∧ 0 ≤ l.unit_price ∧ 0 ≤ l.total_price

instance (l : OrderLine) : Decidable (wfLine l) := by
  unfold wfLine
  infer_instance

/-- The ledger invariant: every line well-formed and line names unique. -/
def wfItems (items : List OrderLine) : Prop :=
  (∀ l ∈ items, wfLine l) ∧ (items.map (fun l => l.name)).Nodup

instance (items : List OrderLine) : Decidable (wfItems items) := by
  unfold wfItems
  infer_instance

/-- All catalog prices non-negative (true of the quoted menu). -/
def menuNonneg (menu : Menu) : Prop := ∀ p ∈ menu, 0 ≤ p.2.price

instance (menu : Menu) : Decidable (menuNonneg menu) := by
  unfold menuNonneg
  infer_instance

/-! ### Theorems -/

set_option maxRecDepth 1000000
set_option maxHeartbeats 2000000


/-- C3: starting from an empty session, "2 chicken shawarma wraps" yields
exactly one line {Chicken Shawarma Wrap, 2, total 2 × $15.50}; the following
"1 beef and 2 chicken shawarma" yields exactly two lines: a new Beef
Shawarma Wrap line of quantity 1 and the chicken line incremented to 4 (the
two-number pattern is consumed, so the generic segment pass does not
double-count it).  The collaborator oracles are never consulted on this
path; `noOracles` models the bare deployment. -/
theorem C3_two_turn_scenario :
    (process_customer_message MENU noOracles Intent.general_question freshConv
      (S "2 chicken shawarma wraps")).conv.order_items =
      [{ name := S "Chicken Shawarma Wrap", quantity := 2, unit_price := 1550,
         total_price := 2 * 1550 }] ∧
    (process_customer_message MENU noOracles Intent.general_question
      (process_customer_message MENU noOracles Intent.general_question freshConv
        (S "2 chicken shawarma wraps")).conv
      (S "1 beef and 2 chicken shawarma")).conv.order_items =
      [{ name := S "Chicken Shawarma Wrap", quantity := 4, unit_price := 1550,
         total_price := 4 * 1550 },
       { name := S "Beef Shawarma Wrap", quantity := 1, unit_price := 1600,
         total_price := 1600 }] := by
  decide

/-- C4 (counterexample): the claim says that on "no 3 soft drinks not 1"
the existing soft-drinks line is set to quantity 3.  With an order of
[2 Hummus, 1 Soft Drinks] the lazy `[^,]+?` captures only the single
character "s", the Hummus line is the first whose name matches it, so
Hummus is set to 3 and the soft-drinks line keeps quantity 1. -/
theorem C4_counterexample :
    (process_customer_message MENU noOracles Intent.general_question
      { messages := [],
        order_items := [{ name := S "Hummus", quantity := 2, unit_price := 950,
                          total_price := 1900 },
                        { name := S "Soft Drinks", quantity := 1, unit_price := 350,
                          total_price := 350 }] }
      (S "no 3 soft drinks not 1")).conv.order_items =
      [{ name := S "Hummus", quantity := 3, unit_price := 950, total_price := 2850 },
       { name := S "Soft Drinks", quantity := 1, unit_price := 350, total_price := 350 }]
    ∧ ¬ ∃ l ∈ (process_customer_message MENU noOracles Intent.general_question
      { messages := [],
        order_items := [{ name := S "Hummus", quantity := 2, unit_price := 950,
                          total_price := 1900 },
                        { name := S "Soft Drinks", quantity := 1, unit_price := 350,
                          total_price := 350 }] }
      (S "no 3 soft drinks not 1")).conv.order_items,
        l.name = S "Soft Drinks" ∧ l.quantity = 3 := by
  decide

/-- C4 (amended): the correction shorthand extracts, through the lazy
`[^,]+?` group, only the single character after the quantity as the item
description, and sets the quantity of the FIRST existing line whose name
contains that character (or shares a word with it).  In the claim's
scenario, where the soft-drinks line is the order's first (here: only)
line, its quantity becomes exactly 3 — not 4 — with the total recomputed,
and the turn returns the summary response immediately. -/
theorem C4_first_line_correction :
    (process_customer_message MENU noOracles Intent.general_question
      { messages := [],
        order_items := [{ name := S "Soft Drinks", quantity := 1, unit_price := 350,
                          total_price := 350 }] }
      (S "no 3 soft drinks not 1")).conv.order_items =
      [{ name := S "Soft Drinks", quantity := 3, unit_price := 350,
         total_price := 3 * 350 }]
    ∧ (process_customer_message MENU noOracles Intent.general_question
      { messages := [],
        order_items := [{ name := S "Soft Drinks", quantity := 1, unit_price := 350,
                          total_price := 350 }] }
      (S "no 3 soft drinks not 1")).response =
      summarize_order
        [{ name := S "Soft Drinks", quantity := 3, unit_price := 350,
           total_price := 1050 }] ++ qSuffix := by
  decide

/-- C2 (counterexample): processing "0 coke" appends an order line with
quantity 0 — `\d+` parses the explicit zero — so "every OrderLine has a
positive integer quantity" fails after this mutation. -/
theorem C2_counterexample :
    ((process_customer_message MENU noOracles Intent.general_question freshConv
        (S "0 coke")).conv.order_items.any (fun l => l.quantity == 0)) = true
    ∧ ¬ (∀ l ∈ (process_customer_message MENU noOracles Intent.general_question
        freshConv (S "0 coke")).conv.order_items, 0 < l.quantity) := by
  decide

/-- C5 (counterexample): a turn whose text both matches the
quantity-correction shorthand and contains a session-ending phrase returns
early from the correction branch; the session-ending check never runs, so
no kitchen ticket is created although the text contains an end phrase and
the order is non-empty. -/
theorem C5_counterexample :
    endPhraseHit (lowerS (S "no 3 soft drinks not 1 that is all")) = true
    ∧ (process_customer_message MENU noOracles Intent.general_question
        { messages := [],
          order_items := [{ name := S "Soft Drinks", quantity := 1, unit_price := 350,
                            total_price := 350 }] }
        (S "no 3 soft drinks not 1 that is all")).conv.order_items ≠ []
    ∧ (process_customer_message MENU noOracles Intent.general_question
        { messages := [],
          order_items := [{ name := S "Soft Drinks", quantity := 1, unit_price := 350,
                            total_price := 350 }] }
        (S "no 3 soft drinks not 1 that is all")).conv.kitchen_ticket = none := by
  decide

/-- C9 (counterexample): a text containing the repeat phrase "what was my
order" can still mutate `order_items`: the quantity-correction shorthand
runs first, and "no 2 cokes not 1" makes it set the first line whose name
contains the lazily-extracted character "c" — here the chicken line — to
quantity 2. -/
theorem C9_counterexample :
    repeatHit (lowerS (S "what was my order no 2 cokes not 1")) = true
    ∧ (process_customer_message MENU noOracles Intent.general_question
        { messages := [],
          order_items := [{ name := S "Chicken Shawarma Wrap", quantity := 3,
                            unit_price := 1550, total_price := 4650 }] }
        (S "what was my order no 2 cokes not 1")).conv.order_items =
      [{ name := S "Chicken Shawarma Wrap", quantity := 2, unit_price := 1550,
         total_price := 3100 }] := by
  decide

/-- C8 (counterexample): the round-trip fails already for the single-line
order [1 Beef Shawarma Wrap]: re-parsing its summary applies the bare
"shawarma" alias (which maps to "chicken shawarma wrap") before the
"beef shawarma" alias ever matches, so the extractor recovers a Chicken
Shawarma Wrap line instead. -/
theorem C8_counterexample :
    ((parse_multiple_items MENU (summarize_order
        [mkLine { name := S "Beef Shawarma Wrap", price := 1600 } 1])).map
      (fun l => (l.name, l.quantity))) =
      [(S "Chicken Shawarma Wrap", 1)] := by
  decide

/-- C8 (amended): the round-trip law does not hold for every non-empty
order (see the counterexample; a trailing Hummus line of a multi-line
order is likewise dropped, the total sentence breaking its word match).
It does hold for single-line orders matched by each of the extractor's
surviving mechanisms, verified here one representative each: the
compound special case ([2 Chicken Shawarma Wrap]), word overlap with the
keyword bonus ([3 Soft Drinks]), and the single-item fallback
([7 Hummus]). -/
theorem C8_roundtrip_representatives :
    ((parse_multiple_items MENU (summarize_order
        [mkLine { name := S "Chicken Shawarma Wrap", price := 1550 } 2])).map
      (fun l => (l.name, l.quantity))) = [(S "Chicken Shawarma Wrap", 2)]
    ∧ ((parse_multiple_items MENU (summarize_order
        [mkLine { name := S "Soft Drinks", price := 350 } 3])).map
      (fun l => (l.name, l.quantity))) = [(S "Soft Drinks", 3)]
    ∧ ((parse_multiple_items MENU (summarize_order
        [mkLine { name := S "Hummus", price := 950 } 7])).map
      (fun l => (l.name, l.quantity))) = [(S "Hummus", 7)] := by
  decide

/-- C6: in the auto cascade with no trained ML classifier, a keyword tier
that yields GENERAL_QUESTION (the designated default) is treated as "no
real match": the returned intent is exactly the LLM tier's result; and the
LLM tier maps any raised exception to UNKNOWN.  The embedding is a total
function, so no tier's exception ever propagates to the caller. -/
theorem C6_auto_llm_fallback (llmReply : Except Unit Str) (text : Str)
    (h : classify_intent_rule_based text = Intent.general_question) :
    classify_intent_auto none llmReply text = classify_intent_llm llmReply
    ∧ ∀ e : Unit, classify_intent_llm (Except.error e) = Intent.unknown := by
  constructor
  · simp [classify_intent_auto, h]
  · intro e
    rfl

/-- Witness for C6 at a concrete input: "zzz" matches no keyword, so the
keyword tier yields GENERAL_QUESTION, and the cascade returns the LLM
tier's parse of the reply "menu". -/
theorem C6_witness :
    classify_intent_rule_based (S "zzz") = Intent.general_question
    ∧ classify_intent_auto none (Except.ok (S "menu")) (S "zzz") =
        classify_intent_llm (Except.ok (S "menu"))
    ∧ classify_intent_llm (Except.ok (S "menu")) = Intent.menu := by
  refine ⟨by decide, (C6_auto_llm_fallback (Except.ok (S "menu")) (S "zzz") (by decide)).1,
    by decide⟩

lemma confirmationStep_none_of_notConf (menu : Menu) (st : Conv) (tl : Str)
    (h : isConfText tl = false) : confirmationStep menu st tl = none := by
  unfold confirmationStep
  cases lastAssistantMsg st.messages with
  | none => rfl
  | some la => simp [h]

lemma correctionStep_none_of_noMatch (st : Conv) (tl : Str)
    (h : corrSearch tl = none) : correctionStep st tl = none := by
  unfold correctionStep
  rw [h]

lemma finalizePhase_order_items (st : Conv) (r s tl : Str) :
    (finalizePhase st r s tl).1.order_items = st.order_items := by
  unfold finalizePhase addMsg
  split
  · dsimp only
    split <;> rfl
  · rfl

lemma finalizePhase_messages (st : Conv) (r s tl : Str) :
    (finalizePhase st r s tl).1.messages =
      st.messages ++ [{ role := Role.assistant, content := (finalizePhase st r s tl).2.1 }] := by
  unfold finalizePhase addMsg
  split
  · dsimp only
    split
    · simp [List.dropLast_concat]
    · simp [List.dropLast_concat]
  · rfl

lemma finalizePhase_no_end (st : Conv) (r s tl : Str) (he : endPhraseHit tl = false) :
    finalizePhase st r s tl = (addMsg st Role.assistant r, r, s) := by
  unfold finalizePhase
  rw [he]
  rfl

lemma finalizePhase_ticket_of_no_end (st : Conv) (r s tl : Str) (he : endPhraseHit tl = false) :
    (finalizePhase st r s tl).1.kitchen_ticket = st.kitchen_ticket := by
  rw [finalizePhase_no_end st r s tl he]
  rfl

lemma finalizePhase_finalize (st : Conv) (r s tl : Str)
    (he : endPhraseHit tl = true) (hn : st.order_items ≠ []) :
    (finalizePhase st r s tl).1.kitchen_ticket = some (buildTicket st.order_items)
    ∧ (finalizePhase st r s tl).2.1 = closingScript st.order_items := by
  unfold finalizePhase addMsg
  simp only [he, if_true]
  have : st.order_items.isEmpty = false := by
    cases hh : st.order_items with
    | nil => exact absurd hh hn
    | cons a l => simp [List.isEmpty]
  simp [this]

lemma confirmationStep_some_shape (menu : Menu) (st : Conv) (tl : Str)
    (cr : Conv × Str) (h : confirmationStep menu st tl = some cr) :
    cr.1.messages = st.messages ++ [{ role := Role.assistant, content := cr.2 }]
    ∧ cr.1.kitchen_ticket = st.kitchen_ticket := by
  unfold confirmationStep at h
  split at h <;> try exact Option.noConfusion h
  split at h <;> try exact Option.noConfusion h
  split at h <;> try exact Option.noConfusion h
  dsimp only at h
  split at h <;> try exact Option.noConfusion h
  split at h <;> try exact Option.noConfusion h
  · simp only [Option.some.injEq] at h
    rw [← h]
    exact ⟨rfl, rfl⟩
  · split at h <;> try exact Option.noConfusion h
    simp only [Option.some.injEq] at h
    rw [← h]
    exact ⟨rfl, rfl⟩

lemma correctionStep_some_shape (st : Conv) (tl : Str) (cr : Conv × Str)
    (h : correctionStep st tl = some cr) :
    cr.1.messages = st.messages ++ [{ role := Role.assistant, content := cr.2 }]
    ∧ cr.1.kitchen_ticket = st.kitchen_ticket := by
  unfold correctionStep at h
  split at h <;> try exact Option.noConfusion h
  split at h <;> try exact Option.noConfusion h
  dsimp only at h
  split at h <;> try exact Option.noConfusion h
  simp only [Option.some.injEq] at h
  rw [← h]
  exact ⟨rfl, rfl⟩

lemma elseChain_no_early (orc : Oracles) (intent : Intent) (st : Conv)
    (tl text : Str) (c : Conv) (r s : Str)
    (h : elseChain orc intent st tl text = Stage.early c r s) : False := by
  unfold elseChain at h
  split at h <;> try exact Stage.noConfusion h
  split at h <;> try exact Stage.noConfusion h
  split at h <;> try exact Stage.noConfusion h
  split at h <;> try exact Stage.noConfusion h

lemma elseChain_flow_state (orc : Oracles) (intent : Intent) (st : Conv)
    (tl text : Str) (c : Conv) (r s : Str) (b : Bool)
    (h : elseChain orc intent st tl text = Stage.flow c r s b) : c = st := by
  unfold elseChain at h
  split at h <;> try (simp only [Stage.flow.injEq] at h; exact h.1.symm)
  split at h <;> try (simp only [Stage.flow.injEq] at h; exact h.1.symm)
  split at h <;> try (simp only [Stage.flow.injEq] at h; exact h.1.symm)
  split at h <;> (simp only [Stage.flow.injEq] at h; exact h.1.symm)

lemma parseFlow_state (menu : Menu) (st : Conv) (tl text : Str) (c : Conv)
    (r s : Str) (b : Bool) (h : parseFlow menu st tl text = Stage.flow c r s b) :
    c = { st with
          order_items :=
            (mergeParsed (isCorrectionTurn tl) (parsedTurnItems menu tl text) st.order_items).1 } := by
  unfold parseFlow at h
  simp only [Stage.flow.injEq] at h
  exact h.1.symm

lemma parseBranch_early_messages (menu : Menu) (orc : Oracles) (intent : Intent)
    (st : Conv) (tl text : Str) (c : Conv) (r s : Str)
    (h : parseBranch menu orc intent st tl text = Stage.early c r s) :
    c.messages = st.messages ++ [{ role := Role.assistant, content := r }] := by
  unfold parseBranch at h
  split at h
  · exact absurd h (by unfold parseFlow; exact fun hh => Stage.noConfusion hh)
  · split at h
    · split at h
      · simp only [Stage.early.injEq] at h
        obtain ⟨h1, h2, _⟩ := h
        rw [← h1, ← h2]
        rfl
      · exact absurd h (fun hh => elseChain_no_early orc intent st tl text c r s hh)
    · exact absurd h (fun hh => elseChain_no_early orc intent st tl text c r s hh)

lemma parseBranch_flow_state (menu : Menu) (orc : Oracles) (intent : Intent)
    (st : Conv) (tl text : Str) (c : Conv) (r s : Str) (b : Bool)
    (h : parseBranch menu orc intent st tl text = Stage.flow c r s b) :
    c.messages = st.messages ∧ c.kitchen_ticket = st.kitchen_ticket := by
  unfold parseBranch at h
  split at h
  · rw [parseFlow_state menu st tl text c r s b h]
    exact ⟨rfl, rfl⟩
  · split at h
    · split at h <;> try exact Stage.noConfusion h
      rw [elseChain_flow_state orc intent st tl text c r s b h]
      exact ⟨rfl, rfl⟩
    · rw [elseChain_flow_state orc intent st tl text c r s b h]
      exact ⟨rfl, rfl⟩

lemma cascade_early_messages (menu : Menu) (orc : Oracles) (intent : Intent)
    (st : Conv) (tl text : Str) (c : Conv) (r s : Str)
    (h : cascade menu orc intent st tl text = Stage.early c r s) :
    c.messages = st.messages ++ [{ role := Role.assistant, content := r }] := by
  unfold cascade at h
  split at h
  · rename_i cr hconf
    simp only [Stage.early.injEq] at h
    obtain ⟨h1, h2, _⟩ := h
    rw [← h1, ← h2]
    exact (confirmationStep_some_shape menu st tl cr hconf).1
  · split at h
    · rename_i cr hcorr
      simp only [Stage.early.injEq] at h
      obtain ⟨h1, h2, _⟩ := h
      rw [← h1, ← h2]
      exact (correctionStep_some_shape st tl cr hcorr).1
    · split at h <;> try exact Stage.noConfusion h
      split at h <;> try exact Stage.noConfusion h
      · split at h <;> exact Stage.noConfusion h
      · exact parseBranch_early_messages menu orc intent st tl text c r s h

lemma cascade_flow_state (menu : Menu) (orc : Oracles) (intent : Intent)
    (st : Conv) (tl text : Str) (c : Conv) (r s : Str) (b : Bool)
    (h : cascade menu orc intent st tl text = Stage.flow c r s b) :
    c.messages = st.messages ∧ c.kitchen_ticket = st.kitchen_ticket := by
  unfold cascade at h
  split at h <;> try exact Stage.noConfusion h
  split at h <;> try exact Stage.noConfusion h
  split at h
  · simp only [Stage.flow.injEq] at h
    rw [← h.1]
    exact ⟨rfl, rfl⟩
  · split at h
    · split at h <;> (simp only [Stage.flow.injEq] at h; rw [← h.1]; exact ⟨rfl, rfl⟩)
    · exact parseBranch_flow_state menu orc intent st tl text c r s b h

lemma cascade_repeat_flow (menu : Menu) (orc : Oracles) (intent : Intent)
    (st : Conv) (tl text : Str)
    (h1 : isConfText tl = false) (h2 : corrSearch tl = none)
    (h3 : repeatHit tl = true) :
    cascade menu orc intent st tl text =
      Stage.flow st (summarize_order st.order_items) (S "template_order_repeat") false := by
  unfold cascade
  rw [confirmationStep_none_of_notConf menu st tl h1,
    correctionStep_none_of_noMatch st tl h2]
  simp [h3]

lemma cascade_unrelated_flow (menu : Menu) (orc : Oracles) (intent : Intent)
    (st : Conv) (tl text : Str)
    (h1 : isConfText tl = false) (h2 : corrSearch tl = none)
    (h3 : repeatHit tl = false) (h4 : orderPhraseHit tl = false)
    (h5 : orderKeywordHit tl = false) (h6 : unrelatedHit tl = true) :
    cascade menu orc intent st tl text =
      Stage.flow st unrelatedResponse (S "template_unrelated") false := by
  unfold cascade
  rw [confirmationStep_none_of_notConf menu st tl h1,
    correctionStep_none_of_noMatch st tl h2]
  simp only [h3, h4, Bool.false_eq_true, if_false]
  unfold parseBranch parsedTurnItems
  simp only [h5, Bool.false_eq_true, if_false, List.isEmpty_nil, Bool.not_true,
    Bool.false_and]
  unfold elseChain
  simp [h6]

/-- C10: on every non-exception turn, the session history grows by exactly
the user message and one assistant entry whose content is the returned
response — including session-ending turns, where the closing script
overwrites that final entry in place rather than appending a second
assistant message. -/
theorem C10_history_single_append (menu : Menu) (orc : Oracles) (intent : Intent)
    (st0 : Conv) (text : Str) :
    (process_customer_message menu orc intent st0 text).conv.messages =
      st0.messages ++
        [{ role := Role.user, content := text },
         { role := Role.assistant,
           content := (process_customer_message menu orc intent st0 text).response }] := by
  unfold process_customer_message
  dsimp only
  cases hc : cascade menu orc intent
      ({ addMsg st0 Role.user text with current_intent := some intent })
      (lowerS text) text with
  | early c r s =>
    have hm := cascade_early_messages menu orc intent _ (lowerS text) text c r s hc
    simp only [hm, addMsg]
    simp
  | flow c r s b =>
    have hm := (cascade_flow_state menu orc intent _ (lowerS text) text c r s b hc).1
    have hf := finalizePhase_messages c r s (lowerS text)
    simp only [hf, hm, addMsg]
    simp

/-- C7: a turn saying "what's the weather" — whatever the session state,
the stored intent and the collaborator oracles — returns the fixed
redirect with provenance "template_unrelated", never invokes the
retrieval+generation collaborator, and mutates no order state. -/
theorem C7_unrelated_redirect (orc : Oracles) (intent : Intent) (st0 : Conv) :
    (process_customer_message MENU orc intent st0 (S "what's the weather")).response =
      unrelatedResponse
    ∧ (process_customer_message MENU orc intent st0 (S "what's the weather")).source =
      S "template_unrelated"
    ∧ (process_customer_message MENU orc intent st0 (S "what's the weather")).ragUsed = false
    ∧ (process_customer_message MENU orc intent st0 (S "what's the weather")).conv.order_items =
      st0.order_items
    ∧ (process_customer_message MENU orc intent st0 (S "what's the weather")).conv.kitchen_ticket =
      st0.kitchen_ticket := by
  unfold process_customer_message
  dsimp only
  rw [cascade_unrelated_flow MENU orc intent _ (lowerS (S "what's the weather"))
    (S "what's the weather") (by decide) (by decide) (by decide) (by decide)
    (by decide) (by decide)]
  dsimp only
  rw [finalizePhase_no_end _ _ _ _ (by decide)]
  simp [addMsg]

/-- C9 (amended): a turn whose text contains a repeat phrase leaves
`order_items` unchanged no matter how often it is repeated, provided the
text does not trigger the two earlier-priority branches the counterexample
exploits: the pending-confirmation branch (a short affirmation) and the
quantity-correction shorthand (a regex match). -/
theorem C9_repeat_frame (orc : Oracles) (intent : Intent) (st0 : Conv)
    (text : Str) (k : Nat)
    (h1 : isConfText (lowerS text) = false)
    (h2 : corrSearch (lowerS text) = none)
    (h3 : repeatHit (lowerS text) = true) :
    ((List.replicate k text).foldl
      (fun s t => (process_customer_message MENU orc intent s t).conv) st0).order_items =
      st0.order_items := by
  induction k generalizing st0 with
  | zero => rfl
  | succ n ih =>
    have hstep : ∀ s0 : Conv,
        (process_customer_message MENU orc intent s0 text).conv.order_items = s0.order_items := by
      intro s0
      unfold process_customer_message
      dsimp only
      rw [cascade_repeat_flow MENU orc intent _ (lowerS text) text h1 h2 h3]
      dsimp only
      rw [finalizePhase_order_items]
      simp [addMsg]
    simp only [List.replicate, List.foldl]
    rw [ih, hstep]

/-- C5 (amended): for every turn that reaches the end of the cascade (is
not taken by an early-returning branch) with a session-ending phrase in its
text and a non-empty order, a kitchen ticket is created with status
"pending" and total the sum of the line totals, and the returned response
is the closing script, overriding whatever response the cascade computed. -/
theorem C5_end_phrase_finalizes (orc : Oracles) (intent : Intent) (st0 : Conv)
    (text : Str) (c : Conv) (r s : Str) (b : Bool)
    (hc : cascade MENU orc intent
      ({ addMsg st0 Role.user text with current_intent := some intent })
      (lowerS text) text = Stage.flow c r s b)
    (he : endPhraseHit (lowerS text) = true)
    (hn : c.order_items ≠ []) :
    (process_customer_message MENU orc intent st0 text).conv.kitchen_ticket =
      some (buildTicket c.order_items)
    ∧ (buildTicket c.order_items).status = S "pending"
    ∧ (buildTicket c.order_items).total = orderTotal c.order_items
    ∧ (process_customer_message MENU orc intent st0 text).response =
      closingScript c.order_items := by
  unfold process_customer_message
  dsimp only
  rw [hc]
  dsimp only
  exact ⟨(finalizePhase_finalize c r s (lowerS text) he hn).1, rfl, rfl,
    (finalizePhase_finalize c r s (lowerS text) he hn).2⟩

/-- Witness for C5 at a concrete turn: "that is all" with one chicken line
flows to the end of the cascade (through the RAG fallback) and is then
overridden: the ticket is created pending with the summed total. -/
theorem C5_witness :
    cascade MENU noOracles Intent.general_question
      ({ addMsg c5State Role.user (S "that is all") with
         current_intent := some Intent.general_question })
      (lowerS (S "that is all")) (S "that is all") =
      Stage.flow c5Flow (S "") (S "llm_gpt4o_mini") true
    ∧ endPhraseHit (lowerS (S "that is all")) = true
    ∧ c5Flow.order_items ≠ []
    ∧ ((process_customer_message MENU noOracles Intent.general_question c5State
          (S "that is all")).conv.kitchen_ticket =
        some (buildTicket c5Flow.order_items)
      ∧ (buildTicket c5Flow.order_items).status = S "pending"
      ∧ (buildTicket c5Flow.order_items).total = orderTotal c5Flow.order_items
      ∧ (process_customer_message MENU noOracles Intent.general_question c5State
          (S "that is all")).response = closingScript c5Flow.order_items) :=
  ⟨by decide, by decide, by decide,
    C5_end_phrase_finalizes noOracles Intent.general_question c5State
      (S "that is all") c5Flow (S "") (S "llm_gpt4o_mini") true (by decide)
      (by decide) (by decide)⟩

/-- Witness for C9 at a concrete input: "what was my order", asked twice,
leaves the order unchanged. -/
theorem C9_witness :
    isConfText (lowerS (S "what was my order")) = false
    ∧ corrSearch (lowerS (S "what was my order")) = none
    ∧ repeatHit (lowerS (S "what was my order")) = true
    ∧ ((List.replicate 2 (S "what was my order")).foldl
        (fun s t => (process_customer_message MENU noOracles Intent.general_question s t).conv)
        c9State).order_items = c9State.order_items :=
  ⟨by decide, by decide, by decide,
    C9_repeat_frame noOracles Intent.general_question c9State
      (S "what was my order") 2 (by decide) (by decide) (by decide)⟩

/-! ### Quantity bookkeeping for the merge law -/

lemma countNamed_nil (n : Str) : countNamed n [] = 0 := rfl

lemma countNamed_eq_zero {n : Str} {items : List OrderLine}
    (h : countNamed n items = 0) : ∀ e ∈ items, (e.name == n) = false := by
  intro e he
  by_contra hne
  have : e ∈ items.filter (fun l => l.name == n) := by
    rw [List.mem_filter]
    exact ⟨he, by revert hne; cases e.name == n <;> simp⟩
  have : 0 < countNamed n items := by
    unfold countNamed
    cases hh : items.filter (fun l => l.name == n) with
    | nil => rw [hh] at this; exact absurd this (List.not_mem_nil e)
    | cons a l => simp [hh]
  omega

lemma qtyOf_absent {n : Str} {items : List OrderLine}
    (h : ∀ e ∈ items, (e.name == n) = false) : qtyOf n items = 0 := by
  unfold qtyOf
  have : items.find? (fun l => l.name == n) = none := by
    rw [List.find?_eq_none]
    intro x hx
    simp [h x hx]
  rw [this]
  rfl

lemma qtyOf_append_absent {n : Str} {items : List OrderLine} {p : OrderLine}
    (h : ∀ e ∈ items, (e.name == n) = false) (hp : (p.name == n) = true) :
    qtyOf n (items ++ [p]) = p.quantity ∧ countNamed n (items ++ [p]) = 1 := by
  constructor
  · unfold qtyOf
    induction items with
    | nil => simp [List.find?, hp]
    | cons e rest ih =>
      have he := h e (by simp)
      simp only [List.cons_append, List.find?, he]
      exact ih (fun x hx => h x (by simp [hx]))
  · unfold countNamed
    rw [List.filter_append]
    have h1 : items.filter (fun l => l.name == n) = [] := by
      rw [List.filter_eq_nil_iff]
      intro a ha
      simp [h a ha]
    rw [h1]
    simp [List.filter, hp]

lemma qtyOf_cons_ne {n : Str} {e : OrderLine} {rest : List OrderLine}
    (he : (e.name == n) = false) : qtyOf n (e :: rest) = qtyOf n rest := by
  unfold qtyOf
  simp [List.find?, he]

lemma qtyOf_cons_eq {n : Str} {e : OrderLine} {rest : List OrderLine}
    (he : (e.name == n) = true) : qtyOf n (e :: rest) = e.quantity := by
  unfold qtyOf
  simp [List.find?, he]

lemma countNamed_cons {n : Str} (e : OrderLine) (rest : List OrderLine) :
    countNamed n (e :: rest) =
      (if (e.name == n) = true then 1 else 0) + countNamed n rest := by
  unfold countNamed
  cases he : e.name == n <;> simp [List.filter, he]
  omega

lemma qtyOf_cons_ne2 {n m : Str} {q : Nat} {u t : ℤ} {rest : List OrderLine}
    (he : (m == n) = false) :
    qtyOf n (OrderLine.mk m q u t :: rest) = qtyOf n rest := by
  unfold qtyOf
  simp [List.find?, he]

lemma qtyOf_cons_eq2 {n m : Str} {q : Nat} {u t : ℤ} {rest : List OrderLine}
    (he : (m == n) = true) :
    qtyOf n (OrderLine.mk m q u t :: rest) = q := by
  unfold qtyOf
  simp [List.find?, he]

/-! ### Merge-loop lemmas -/

lemma parseMergeGo_cons_miss (ic : Bool) (p e : OrderLine) (rest : List OrderLine)
    (he : (e.name == p.name) = false) :
    parseMergeGo ic p (e :: rest) =
      (e :: (parseMergeGo ic p rest).1, (parseMergeGo ic p rest).2) := by
  conv_lhs => rw [parseMergeGo]
  rw [he, if_neg (by simp)]

lemma parseMergeGo_cons_hit_corr (p e : OrderLine) (rest : List OrderLine)
    (he : (e.name == p.name) = true) :
    parseMergeGo true p (e :: rest) =
      ({ e with
          quantity := p.quantity,
          total_price := (p.quantity : ℤ) * e.unit_price } :: rest, true) := by
  unfold parseMergeGo
  rw [he, if_pos rfl, if_pos rfl]

lemma parseMergeGo_cons_hit_add (p e : OrderLine) (rest : List OrderLine)
    (he : (e.name == p.name) = true) :
    parseMergeGo false p (e :: rest) =
      ({ e with
          quantity := e.quantity + p.quantity,
          total_price := ((e.quantity + p.quantity : Nat) : ℤ) * e.unit_price } :: rest, true) := by
  unfold parseMergeGo
  rw [he, if_pos rfl, if_neg (by simp)]

lemma parseMergeGo_not_found {ic : Bool} {p : OrderLine} {items : List OrderLine}
    (h : ∀ e ∈ items, (e.name == p.name) = false) :
    parseMergeGo ic p items = (items, false) := by
  induction items with
  | nil => rfl
  | cons e rest ih =>
    rw [parseMergeGo_cons_miss ic p e rest (h e (by simp)),
      ih (fun x hx => h x (by simp [hx]))]

lemma parseMergeGo_false_not_found {ic : Bool} {p : OrderLine} {items : List OrderLine}
    (h : (parseMergeGo ic p items).2 = false) :
    ∀ e ∈ items, (e.name == p.name) = false := by
  induction items with
  | nil => intro e he; exact absurd he (List.not_mem_nil e)
  | cons e rest ih =>
    intro x hx
    by_cases he : (e.name == p.name) = true
    · exfalso
      cases ic
      · rw [parseMergeGo_cons_hit_add p e rest he] at h
        exact Bool.noConfusion h
      · rw [parseMergeGo_cons_hit_corr p e rest he] at h
        exact Bool.noConfusion h
    · rw [Bool.not_eq_true] at he
      rw [parseMergeGo_cons_miss ic p e rest he] at h
      rcases List.mem_cons.mp hx with hx | hx
      · rw [hx]; exact he
      · exact ih h x hx

lemma parseMergeGo_preserves {ic : Bool} {p : OrderLine} {items : List OrderLine}
    {n : Str} (hne : (p.name == n) = false) :
    qtyOf n (parseMergeGo ic p items).1 = qtyOf n items ∧
    countNamed n (parseMergeGo ic p items).1 = countNamed n items := by
  induction items with
  | nil => exact ⟨rfl, rfl⟩
  | cons e rest ih =>
    by_cases he : (e.name == p.name) = true
    · have hen : (e.name == n) = false := by
        have : e.name = p.name := eq_of_beq he
        rw [this]; exact hne
      cases ic
      · rw [parseMergeGo_cons_hit_add p e rest he]
        dsimp only
        constructor
        · rw [qtyOf_cons_ne2 hen, qtyOf_cons_ne hen]
        · rw [countNamed_cons, countNamed_cons]
      · rw [parseMergeGo_cons_hit_corr p e rest he]
        dsimp only
        constructor
        · rw [qtyOf_cons_ne2 hen, qtyOf_cons_ne hen]
        · rw [countNamed_cons, countNamed_cons]
    · rw [Bool.not_eq_true] at he
      rw [parseMergeGo_cons_miss ic p e rest he]
      cases hen : e.name == n
      · rw [qtyOf_cons_ne hen, qtyOf_cons_ne hen, countNamed_cons, countNamed_cons]
        simp only [hen]
        exact ⟨ih.1, by rw [ih.2]⟩
      · rw [qtyOf_cons_eq hen, qtyOf_cons_eq hen, countNamed_cons, countNamed_cons]
        rw [ih.2]
        exact ⟨rfl, rfl⟩

lemma parseMergeStep_preserves {ic : Bool} {acc : List OrderLine × Option Str}
    {p : OrderLine} {n : Str} (hne : (p.name == n) = false) :
    qtyOf n (parseMergeStep ic acc p).1 = qtyOf n acc.1 ∧
    countNamed n (parseMergeStep ic acc p).1 = countNamed n acc.1 := by
  unfold parseMergeStep
  cases hr : (parseMergeGo ic p acc.1).2
  · simp only [hr, Bool.false_eq_true, if_false]
    constructor
    · induction acc.1 with
      | nil => rw [List.nil_append, qtyOf_cons_ne hne]
      | cons e rest ih =>
        cases hen : e.name == n
        · rw [qtyOf_cons_ne hen]
          simp only [List.cons_append]
          rw [qtyOf_cons_ne hen]
          exact ih
        · rw [qtyOf_cons_eq hen]
          simp only [List.cons_append]
          rw [qtyOf_cons_eq hen]
    · unfold countNamed
      rw [List.filter_append]
      simp [List.filter, hne]
  · simp only [hr, if_true]
    exact parseMergeGo_preserves hne

lemma parseMergeGo_named_one {ic : Bool} {p : OrderLine} {items : List OrderLine}
    {n : Str} (heq : (p.name == n) = true) (hc : countNamed n items = 1) :
    (parseMergeGo ic p items).2 = true ∧
    countNamed n (parseMergeGo ic p items).1 = 1 ∧
    qtyOf n (parseMergeGo ic p items).1 =
      (if ic then p.quantity else qtyOf n items + p.quantity) := by
  have hpn : p.name = n := eq_of_beq heq
  induction items with
  | nil => exact absurd hc (by rw [countNamed_nil]; omega)
  | cons e rest ih =>
    by_cases he : (e.name == p.name) = true
    · have hen : (e.name == n) = true := by
        rw [← hpn]; exact he
      have hrest : countNamed n rest = 0 := by
        rw [countNamed_cons] at hc
        simp [hen] at hc
        omega
      cases ic
      · rw [parseMergeGo_cons_hit_add p e rest he]
        dsimp only
        refine ⟨rfl, ?_, ?_⟩
        · rw [countNamed_cons]
          simp [hen, hrest]
        · rw [qtyOf_cons_eq2 hen, qtyOf_cons_eq hen]
          simp
      · rw [parseMergeGo_cons_hit_corr p e rest he]
        dsimp only
        refine ⟨rfl, ?_, ?_⟩
        · rw [countNamed_cons]
          simp [hen, hrest]
        · rw [qtyOf_cons_eq2 hen]
          simp
    · have hen : (e.name == n) = false := by
        rw [← hpn]
        rw [Bool.not_eq_true] at he
        exact he
      have hrest : countNamed n rest = 1 := by
        rw [countNamed_cons] at hc
        simp [hen] at hc
        omega
      rw [Bool.not_eq_true] at he
      rw [parseMergeGo_cons_miss ic p e rest he]
      obtain ⟨h1, h2, h3⟩ := ih hrest
      refine ⟨h1, ?_, ?_⟩
      · rw [countNamed_cons]
        simp only [hen, Bool.false_eq_true, if_false]
        rw [h2]
      · rw [qtyOf_cons_ne hen, qtyOf_cons_ne hen]
        exact h3

lemma parseMergeStep_named {ic : Bool} {acc : List OrderLine × Option Str}
    {p : OrderLine} {n : Str} (heq : (p.name == n) = true) :
    (countNamed n acc.1 = 0 →
      qtyOf n (parseMergeStep ic acc p).1 = p.quantity ∧
      countNamed n (parseMergeStep ic acc p).1 = 1) ∧
    (countNamed n acc.1 = 1 →
      countNamed n (parseMergeStep ic acc p).1 = 1 ∧
      qtyOf n (parseMergeStep ic acc p).1 =
        (if ic then p.quantity else qtyOf n acc.1 + p.quantity)) := by
  constructor
  · intro h0
    have habs := countNamed_eq_zero h0
    have habs' : ∀ e ∈ acc.1, (e.name == p.name) = false := by
      intro e he
      have : p.name = n := eq_of_beq heq
      rw [this]
      exact habs e he
    unfold parseMergeStep
    rw [parseMergeGo_not_found habs']
    simp only [Bool.false_eq_true, if_false]
    exact qtyOf_append_absent habs heq
  · intro h1
    obtain ⟨hg1, hg2, hg3⟩ := @parseMergeGo_named_one ic p acc.1 n heq h1
    unfold parseMergeStep
    dsimp only
    rw [hg1, if_pos rfl]
    exact ⟨hg2, hg3⟩

lemma cascade_parse_flow (menu : Menu) (orc : Oracles) (intent : Intent)
    (st : Conv) (tl text : Str)
    (h1 : isConfText tl = false) (h2 : corrSearch tl = none)
    (h3 : repeatHit tl = false) (h4 : orderPhraseHit tl = false)
    (h5 : (parsedTurnItems menu tl text).isEmpty = false) :
    cascade menu orc intent st tl text = parseFlow menu st tl text := by
  unfold cascade
  rw [confirmationStep_none_of_notConf menu st tl h1,
    correctionStep_none_of_noMatch st tl h2]
  simp only [h3, h4, Bool.false_eq_true, if_false]
  unfold parseBranch
  rw [h5]
  simp

lemma parsePath_order_items (menu : Menu) (orc : Oracles) (intent : Intent)
    (st0 : Conv) (text : Str) (hp : parsePathTurn menu text = true) :
    (process_customer_message menu orc intent st0 text).conv.order_items =
      (mergeParsed (isCorrectionTurn (lowerS text))
        (parsedTurnItems menu (lowerS text) text) st0.order_items).1 := by
  unfold parsePathTurn at hp
  simp only [Bool.and_eq_true, Bool.not_eq_true', Option.isNone_iff_eq_none] at hp
  obtain ⟨⟨⟨⟨hc, hcorr⟩, hr⟩, ho⟩, hne⟩ := hp
  unfold process_customer_message
  dsimp only
  rw [cascade_parse_flow menu orc intent _ (lowerS text) text hc hcorr hr ho hne]
  unfold parseFlow
  dsimp only
  rw [finalizePhase_order_items]
  rfl

lemma mergeFold_preserves {ic : Bool} {n : Str} (ps : List OrderLine)
    (h : ∀ p ∈ ps, (p.name == n) = false) (acc : List OrderLine × Option Str) :
    qtyOf n (ps.foldl (parseMergeStep ic) acc).1 = qtyOf n acc.1 ∧
    countNamed n (ps.foldl (parseMergeStep ic) acc).1 = countNamed n acc.1 := by
  induction ps generalizing acc with
  | nil => exact ⟨rfl, rfl⟩
  | cons p ps ih =>
    simp only [List.foldl_cons]
    obtain ⟨hq, hc⟩ := @parseMergeStep_preserves ic acc p n (h p (by simp))
    obtain ⟨ihq, ihc⟩ := ih (fun x hx => h x (by simp [hx])) (parseMergeStep ic acc p)
    exact ⟨by rw [ihq, hq], by rw [ihc, hc]⟩

lemma mergeFold_single {ic : Bool} {n : Str} {pn : OrderLine} (ps : List OrderLine)
    (hf : ps.filter (fun l => l.name == n) = [pn]) (acc : List OrderLine × Option Str) :
    (countNamed n acc.1 = 0 →
      qtyOf n (ps.foldl (parseMergeStep ic) acc).1 = pn.quantity ∧
      countNamed n (ps.foldl (parseMergeStep ic) acc).1 = 1) ∧
    (countNamed n acc.1 = 1 →
      countNamed n (ps.foldl (parseMergeStep ic) acc).1 = 1 ∧
      qtyOf n (ps.foldl (parseMergeStep ic) acc).1 =
        (if ic then pn.quantity else qtyOf n acc.1 + pn.quantity)) := by
  induction ps generalizing acc with
  | nil => exact absurd hf (by simp)
  | cons p ps ih =>
    cases hpn : p.name == n
    · have hf' : ps.filter (fun l => l.name == n) = [pn] := by
        rw [List.filter_cons] at hf
        simp only [hpn, Bool.false_eq_true, if_false] at hf
        exact hf
      simp only [List.foldl_cons]
      obtain ⟨hq, hc⟩ := @parseMergeStep_preserves ic acc p n hpn
      have hrec := ih hf' (parseMergeStep ic acc p)
      constructor
      · intro h0
        exact hrec.1 (by rw [hc]; exact h0)
      · intro h1
        obtain ⟨c1, q1⟩ := hrec.2 (by rw [hc]; exact h1)
        exact ⟨c1, by rw [q1, hq]⟩
    · have hsplit : p = pn ∧ ps.filter (fun l => l.name == n) = [] := by
        rw [List.filter_cons, if_pos hpn] at hf
        simp only [List.cons.injEq] at hf
        exact hf
      obtain ⟨hp_eq, hrest⟩ := hsplit
      have hrestall : ∀ x ∈ ps, (x.name == n) = false := by
        intro x hx
        have := List.filter_eq_nil_iff.mp hrest x hx
        revert this
        cases x.name == n <;> simp
      simp only [List.foldl_cons]
      obtain ⟨case0, case1⟩ := @parseMergeStep_named ic acc p n hpn
      obtain ⟨pq, pc⟩ := mergeFold_preserves ps hrestall (parseMergeStep ic acc p)
      constructor
      · intro h0
        obtain ⟨q0, c0⟩ := case0 h0
        exact ⟨by rw [pq, q0, hp_eq], by rw [pc, c0]⟩
      · intro h1
        obtain ⟨c1, q1⟩ := case1 h1
        exact ⟨by rw [pc, c1], by rw [pq, q1, hp_eq]⟩

lemma mergeParsed_stats {ic : Bool} {n : Str} {pn : OrderLine}
    (ps items : List OrderLine)
    (hf : ps.filter (fun l => l.name == n) = [pn]) :
    (countNamed n items = 0 →
      qtyOf n (mergeParsed ic ps items).1 = pn.quantity ∧
      countNamed n (mergeParsed ic ps items).1 = 1) ∧
    (countNamed n items = 1 →
      countNamed n (mergeParsed ic ps items).1 = 1 ∧
      qtyOf n (mergeParsed ic ps items).1 =
        (if ic then pn.quantity else qtyOf n items + pn.quantity)) := by
  unfold mergeParsed
  exact mergeFold_single ps hf (items, none)

lemma turn_stats (menu : Menu) (orc : Oracles) (intent : Intent) (st0 : Conv)
    (text : Str) {n : Str} {pn : OrderLine}
    (hp : parsePathTurn menu text = true)
    (hf : (parsedTurnItems menu (lowerS text) text).filter (fun l => l.name == n) = [pn]) :
    (countNamed n st0.order_items = 0 →
      qtyOf n (process_customer_message menu orc intent st0 text).conv.order_items = pn.quantity ∧
      countNamed n (process_customer_message menu orc intent st0 text).conv.order_items = 1) ∧
    (countNamed n st0.order_items = 1 →
      countNamed n (process_customer_message menu orc intent st0 text).conv.order_items = 1 ∧
      qtyOf n (process_customer_message menu orc intent st0 text).conv.order_items =
        (if isCorrectionTurn (lowerS text) then pn.quantity
         else qtyOf n st0.order_items + pn.quantity)) := by
  rw [parsePath_order_items menu orc intent st0 text hp]
  exact mergeParsed_stats _ _ hf

lemma turnQty_eq {menu : Menu} {n : Str} {pn : OrderLine} {text : Str}
    (hf : (parsedTurnItems menu (lowerS text) text).filter (fun l => l.name == n) = [pn]) :
    turnQty menu n text = pn.quantity := by
  unfold turnQty
  rw [hf]
  simp

lemma foldTurns_sum (menu : Menu) (orc : Oracles) (intent : Intent)
    (texts : List Str) (n : Str) :
    ∀ st0 : Conv,
    (∀ t ∈ texts, parsePathTurn menu t = true) →
    (∀ t ∈ texts,
      ((parsedTurnItems menu (lowerS t) t).filter (fun l => l.name == n)).length = 1) →
    (∀ t ∈ texts, isCorrectionTurn (lowerS t) = false) →
    (countNamed n st0.order_items = 0 ∨ countNamed n st0.order_items = 1) →
    qtyOf n (texts.foldl (turnStep menu orc intent) st0).order_items =
      qtyOf n st0.order_items + (texts.map (turnQty menu n)).sum ∧
    (countNamed n (texts.foldl (turnStep menu orc intent) st0).order_items = 0 ∨
     countNamed n (texts.foldl (turnStep menu orc intent) st0).order_items = 1) := by
  induction texts with
  | nil =>
    intro st0 _ _ _ hcnt
    exact ⟨by simp, hcnt⟩
  | cons t ts ih =>
    intro st0 hroute hone hnocorr hcnt
    obtain ⟨pn, hpn⟩ := List.length_eq_one.mp (hone t (by simp))
    have hturn := turn_stats menu orc intent st0 t (hroute t (by simp)) hpn
    have hq : turnQty menu n t = pn.quantity := turnQty_eq hpn
    simp only [List.foldl_cons, List.map_cons, List.sum_cons]
    have hstepC : turnStep menu orc intent st0 t =
        (process_customer_message menu orc intent st0 t).conv := rfl
    rcases hcnt with h0 | h1
    · obtain ⟨q1, c1⟩ := hturn.1 h0
      have hz : qtyOf n st0.order_items = 0 := qtyOf_absent (countNamed_eq_zero h0)
      obtain ⟨ihq, ihc⟩ := ih (turnStep menu orc intent st0 t)
        (fun x hx => hroute x (by simp [hx]))
        (fun x hx => hone x (by simp [hx]))
        (fun x hx => hnocorr x (by simp [hx]))
        (Or.inr (by rw [hstepC]; exact c1))
      refine ⟨?_, ihc⟩
      rw [ihq, hstepC, q1, hz, hq]
      omega
    · obtain ⟨c1, q1⟩ := hturn.2 h1
      rw [hnocorr t (by simp)] at q1
      simp only [Bool.false_eq_true, if_false] at q1
      obtain ⟨ihq, ihc⟩ := ih (turnStep menu orc intent st0 t)
        (fun x hx => hroute x (by simp [hx]))
        (fun x hx => hone x (by simp [hx]))
        (fun x hx => hnocorr x (by simp [hx]))
        (Or.inr (by rw [hstepC]; exact c1))
      refine ⟨?_, ihc⟩
      rw [ihq, hstepC, q1, hq]
      omega

lemma foldTurns_count (menu : Menu) (orc : Oracles) (intent : Intent)
    (texts : List Str) (n : Str) :
    ∀ st0 : Conv,
    (∀ t ∈ texts, parsePathTurn menu t = true) →
    (∀ t ∈ texts,
      ((parsedTurnItems menu (lowerS t) t).filter (fun l => l.name == n)).length = 1) →
    (countNamed n st0.order_items = 0 ∨ countNamed n st0.order_items = 1) →
    (countNamed n (texts.foldl (turnStep menu orc intent) st0).order_items = 0 ∨
     countNamed n (texts.foldl (turnStep menu orc intent) st0).order_items = 1) := by
  induction texts with
  | nil => intro st0 _ _ hcnt; exact hcnt
  | cons t ts ih =>
    intro st0 hroute hone hcnt
    obtain ⟨pn, hpn⟩ := List.length_eq_one.mp (hone t (by simp))
    have hturn := turn_stats menu orc intent st0 t (hroute t (by simp)) hpn
    simp only [List.foldl_cons]
    have hnext : countNamed n (turnStep menu orc intent st0 t).order_items = 1 := by
      rcases hcnt with h0 | h1
      · exact (hturn.1 h0).2
      · exact (hturn.2 h1).1
    exact ih (turnStep menu orc intent st0 t)
      (fun x hx => hroute x (by simp [hx]))
      (fun x hx => hone x (by simp [hx]))
      (Or.inr hnext)

/-- C1: within one session, over turns that all route into the item-extraction
branch and each parse exactly one line for the canonical name `n`: if no turn
carries a correction keyword, the final quantity of the `n`-line is the sum of
the turns' parsed quantities (merge law); and when the last turn carries a
correction keyword, the quantity after it equals that turn's parsed quantity
alone, never the running sum (replace law). -/
theorem C1_merge_replace_law (orc : Oracles) (intent : Intent) (st0 : Conv)
    (texts : List Str) (n : Str)
    (hstart : countNamed n st0.order_items = 0)
    (hroute : ∀ t ∈ texts, parsePathTurn MENU t = true)
    (hone : ∀ t ∈ texts,
      ((parsedTurnItems MENU (lowerS t) t).filter (fun l => l.name == n)).length = 1) :
    ((∀ t ∈ texts, isCorrectionTurn (lowerS t) = false) →
      qtyOf n (texts.foldl (turnStep MENU orc intent) st0).order_items =
        (texts.map (turnQty MENU n)).sum) ∧
    (∀ pre t, texts = pre ++ [t] → isCorrectionTurn (lowerS t) = true →
      qtyOf n (texts.foldl (turnStep MENU orc intent) st0).order_items =
        turnQty MENU n t) := by
  constructor
  · intro hnc
    have hs := foldTurns_sum MENU orc intent texts n st0 hroute hone hnc (Or.inl hstart)
    rw [hs.1, qtyOf_absent (countNamed_eq_zero hstart), Nat.zero_add]
  · intro pre t hsplit hcorr
    subst hsplit
    rw [List.foldl_append]
    simp only [List.foldl_cons, List.foldl_nil]
    have hcnt := foldTurns_count MENU orc intent pre n st0
      (fun x hx => hroute x (by simp [hx]))
      (fun x hx => hone x (by simp [hx]))
      (Or.inl hstart)
    obtain ⟨pn, hpn⟩ := List.length_eq_one.mp (hone t (by simp))
    have hturn := turn_stats MENU orc intent
      (pre.foldl (turnStep MENU orc intent) st0) t (hroute t (by simp)) hpn
    rw [turnQty_eq hpn]
    rcases hcnt with h0 | h1
    · exact (hturn.1 h0).1
    · have hq := (hturn.2 h1).2
      rw [hcorr, if_pos rfl] at hq
      exact hq

theorem C1_witness :
    (∀ t ∈ c1TextsAdd, parsePathTurn MENU t = true) ∧
    qtyOf c1Name
        (c1TextsAdd.foldl (turnStep MENU noOracles Intent.general_question) freshConv).order_items =
      (c1TextsAdd.map (turnQty MENU c1Name)).sum ∧
    qtyOf c1Name
        (c1TextsCorr.foldl (turnStep MENU noOracles Intent.general_question) freshConv).order_items =
      turnQty MENU c1Name (S "wrong, make it 5 chicken shawarma wraps") :=
  ⟨by decide,
   (C1_merge_replace_law noOracles Intent.general_question freshConv c1TextsAdd c1Name
      (by decide) (by decide) (by decide)).1 (by decide),
   (C1_merge_replace_law noOracles Intent.general_question freshConv c1TextsCorr c1Name
      (by decide) (by decide) (by decide)).2 [S "2 chicken shawarma wraps"]
      (S "wrong, make it 5 chicken shawarma wraps") rfl (by decide)⟩

/-! ### The order-line invariant (C2) -/

lemma wfLine_mkLine {mi : MenuItem} (q : Nat) (h : 0 ≤ mi.price) :
    wfLine (mkLine mi q) :=
  ⟨mul_comm mi.price (q : ℤ), h, mul_nonneg h (Int.natCast_nonneg q)⟩

/-- Best-scoring folds only ever return an element of the scanned list. -/
lemma foldChoice_mem {α : Type} {f : (Nat × Option α) → α → (Nat × Option α)}
    (hf : ∀ b x, f b x = b ∨ ∃ k, f b x = (k, some x)) :
    ∀ (l : List α) (b : Nat × Option α) (p : α),
      (l.foldl f b).2 = some p → b.2 = some p ∨ p ∈ l := by
  intro l
  induction l with
  | nil => intro b p h; exact Or.inl h
  | cons x xs ih =>
    intro b p h
    rcases ih (f b x) p h with h2 | h2
    · rcases hf b x with h3 | ⟨k, h3⟩
      · rw [h3] at h2
        exact Or.inl h2
      · rw [h3] at h2
        simp only [Option.some.injEq] at h2
        exact Or.inr (by rw [← h2]; exact List.mem_cons_self x xs)
    · exact Or.inr (List.mem_cons_of_mem x h2)

lemma pqiBest_mem {menu : Menu} {q : Str} {prefers rwrap : Bool}
    {p : Str × MenuItem} (h : (pqiBest menu q prefers rwrap).2 = some p) :
    p ∈ menu := by
  unfold pqiBest at h
  have hf1 : ∀ (b : Nat × Option (Str × MenuItem)) (x : Str × MenuItem),
      (let core := coreOf x.1
       if core.isEmpty then b
       else if rwrap && prefers && !(hasSub (S "wrap") x.1) &&
           !(hasSub (S "sandwich") x.1) then b
       else if hasSub core q && b.1 < core.length then (core.length, some x)
       else b) = b ∨
      ∃ k, (let core := coreOf x.1
       if core.isEmpty then b
       else if rwrap && prefers && !(hasSub (S "wrap") x.1) &&
           !(hasSub (S "sandwich") x.1) then b
       else if hasSub core q && b.1 < core.length then (core.length, some x)
       else b) = (k, some x) := by
    intro b x
    dsimp only
    by_cases h1 : (coreOf x.1).isEmpty = true
    · rw [if_pos h1]; exact Or.inl rfl
    · rw [if_neg h1]
      by_cases h2 : (rwrap && prefers && !(hasSub (S "wrap") x.1) &&
          !(hasSub (S "sandwich") x.1)) = true
      · rw [if_pos h2]; exact Or.inl rfl
      · rw [if_neg h2]
        by_cases h3 : (hasSub (coreOf x.1) q && b.1 < (coreOf x.1).length) = true
        · rw [if_pos h3]; exact Or.inr ⟨(coreOf x.1).length, rfl⟩
        · rw [if_neg h3]; exact Or.inl rfl
  rcases foldChoice_mem hf1 menu ((0 : Nat), none) p h with h2 | h2
  · exact absurd h2 (by simp)
  · exact h2

lemma bestMenuMatch_mem {menu : Menu} {desc descClean : Str}
    {p : Str × MenuItem} (h : bestMenuMatch menu desc descClean = some p) :
    p ∈ menu := by
  unfold bestMenuMatch at h
  have hf1 : ∀ (b : Nat × Option (Str × MenuItem)) (x : Str × MenuItem),
      (let sc := itemScore desc descClean x.1
       if b.1 < sc then (sc, some x) else b) = b ∨
      ∃ k, (let sc := itemScore desc descClean x.1
       if b.1 < sc then (sc, some x) else b) = (k, some x) := by
    intro b x
    dsimp only
    by_cases h1 : (b.1 < itemScore desc descClean x.1)
    · rw [if_pos h1]; exact Or.inr ⟨itemScore desc descClean x.1, rfl⟩
    · rw [if_neg h1]; exact Or.inl rfl
  rcases foldChoice_mem hf1 menu ((0 : Nat), none) p h with h2 | h2
  · exact absurd h2 (by simp)
  · exact h2

lemma menuGet_nonneg {menu : Menu} (hm : menuNonneg menu) {k : Str}
    {mi : MenuItem} (h : menuGet menu k = some mi) : 0 ≤ mi.price := by
  unfold menuGet at h
  cases hf : menu.find? (fun p => p.1 == k) with
  | none => rw [hf] at h; exact Option.noConfusion h
  | some pr =>
    rw [hf] at h
    have h2 : pr.2 = mi := by
      cases h3 : Option.map (fun p => p.2) (some pr) with
      | none => rw [h3] at h; exact Option.noConfusion h
      | some v =>
        rw [h3] at h
        cases h
        cases h3
        rfl
    rw [← h2]
    exact hm pr (List.mem_of_find?_eq_some hf)

lemma pqi_wf {menu : Menu} (hm : menuNonneg menu) {text : Str} {l : OrderLine}
    (h : parse_quantity_and_item menu text = some l) : wfLine l := by
  unfold parse_quantity_and_item at h
  dsimp only at h
  split at h
  · rename_i p hp
    simp only [Option.some.injEq] at h
    rw [← h]
    refine wfLine_mkLine _ ?_
    split at hp
    · exact hm p (pqiBest_mem hp)
    · exact hm p (pqiBest_mem hp)
  · exact Option.noConfusion h

lemma extraItems_nonneg : ∀ pr ∈ extraItems, 0 ≤ pr.2.price := by decide

lemma segToItems_wf {menu : Menu} (hm : menuNonneg menu) (seg : Str) :
    ∀ l ∈ segToItems menu seg, wfLine l := by
  intro l hl
  unfold segToItems at hl
  dsimp only at hl
  split at hl
  · exact absurd hl (List.not_mem_nil l)
  · split at hl
    · exact absurd hl (List.not_mem_nil l)
    · rename_i qty descRaw heq
      split at hl
      · exact absurd hl (List.not_mem_nil l)
      · split at hl
        · rename_i p hp
          rcases List.mem_singleton.mp hl with rfl
          exact wfLine_mkLine _ (hm p (bestMenuMatch_mem hp))
        · split at hl
          · split at hl
            · rename_i mi hmi
              rcases List.mem_singleton.mp hl with rfl
              exact wfLine_mkLine _ (menuGet_nonneg hm hmi)
            · rcases List.mem_singleton.mp hl with rfl
              refine ⟨mul_comm 350 ((qty : ℤ)), ?_, ?_⟩
              · show (0 : ℤ) ≤ 350
                decide
              · show (0 : ℤ) ≤ 350 * (qty : ℤ)
                exact mul_nonneg (by decide) (Int.natCast_nonneg qty)
          · split at hl
            · split at hl
              · rename_i pr hpr
                rcases List.mem_singleton.mp hl with rfl
                exact wfLine_mkLine _
                  (extraItems_nonneg pr (List.mem_of_find?_eq_some hpr))
              · exact absurd hl (List.not_mem_nil l)
            · exact absurd hl (List.not_mem_nil l)

lemma mem_foldl_acc {α : Type} (g : α → List OrderLine) (l : List α) :
    ∀ (init : List OrderLine) (x : OrderLine),
      x ∈ l.foldl (fun acc a => acc ++ g a) init → x ∈ init ∨ ∃ a ∈ l, x ∈ g a := by
  induction l with
  | nil => intro init x h; exact Or.inl h
  | cons a as ih =>
    intro init x h
    simp only [List.foldl_cons] at h
    rcases ih (init ++ g a) x h with h2 | ⟨b, hb, hx⟩
    · rcases List.mem_append.mp h2 with h3 | h3
      · exact Or.inl h3
      · exact Or.inr ⟨a, by simp, h3⟩
    · exact Or.inr ⟨b, by simp [hb], hx⟩

lemma complexItemsOf_wf {menu : Menu} (hm : menuNonneg menu) (m : CMatch) :
    ∀ l ∈ complexItemsOf menu m, wfLine l := by
  intro l hl
  have heq : complexItemsOf menu m =
      menu.foldl (fun acc p =>
        acc ++ ((if hasSub m.t1 p.1 && hasSub m.itemType p.1 then [mkLine p.2 m.q1] else [])
          ++ (if hasSub m.t2 p.1 && hasSub m.itemType p.1 then [mkLine p.2 m.q2] else []))) [] := by
    unfold complexItemsOf
    congr 1
    funext acc p
    rw [List.append_assoc]
  rw [heq] at hl
  rcases mem_foldl_acc _ menu [] l hl with h2 | ⟨p, hp, hx⟩
  · exact absurd h2 (List.not_mem_nil l)
  · rcases List.mem_append.mp hx with h3 | h3
    · split at h3
      · rcases List.mem_singleton.mp h3 with rfl
        exact wfLine_mkLine m.q1 (hm p hp)
      · exact absurd h3 (List.not_mem_nil l)
    · split at h3
      · rcases List.mem_singleton.mp h3 with rfl
        exact wfLine_mkLine m.q2 (hm p hp)
      · exact absurd h3 (List.not_mem_nil l)

lemma parse_multiple_items_wf {menu : Menu} (hm : menuNonneg menu) (text : Str) :
    ∀ l ∈ parse_multiple_items menu text, wfLine l := by
  intro l hl
  unfold parse_multiple_items at hl
  dsimp only at hl
  split at hl
  · split at hl
    · rename_i i hi
      rcases List.mem_singleton.mp hl with rfl
      exact pqi_wf hm hi
    · exact absurd hl (List.not_mem_nil l)
  · rcases List.mem_append.mp hl with h2 | h2
    · rcases mem_foldl_acc _ _ [] l h2 with h3 | ⟨mm, _, hx⟩
      · exact absurd h3 (List.not_mem_nil l)
      · exact complexItemsOf_wf hm mm l hx
    · rcases mem_foldl_acc _ _ [] l h2 with h3 | ⟨sg, _, hx⟩
      · exact absurd h3 (List.not_mem_nil l)
      · exact segToItems_wf hm sg l hx

lemma parsedTurnItems_wf {menu : Menu} (hm : menuNonneg menu) (tl text : Str) :
    ∀ l ∈ parsedTurnItems menu tl text, wfLine l := by
  intro l hl
  unfold parsedTurnItems at hl
  split at hl
  · dsimp only at hl
    split at hl
    · split at hl
      · rename_i i hi
        rcases List.mem_singleton.mp hl with rfl
        exact pqi_wf hm hi
      · exact absurd hl (List.not_mem_nil l)
    · exact parse_multiple_items_wf hm text l hl
  · exact absurd hl (List.not_mem_nil l)

lemma parseMergeGo_names (ic : Bool) (p : OrderLine) (items : List OrderLine) :
    (parseMergeGo ic p items).1.map (fun l => l.name) =
      items.map (fun l => l.name) := by
  induction items with
  | nil => rfl
  | cons e rest ih =>
    by_cases he : (e.name == p.name) = true
    · cases ic
      · rw [parseMergeGo_cons_hit_add p e rest he]
        rfl
      · rw [parseMergeGo_cons_hit_corr p e rest he]
        rfl
    · rw [Bool.not_eq_true] at he
      rw [parseMergeGo_cons_miss ic p e rest he]
      simp only [List.map_cons]
      rw [ih]

lemma parseMergeGo_wfAll {ic : Bool} {p : OrderLine} {items : List OrderLine}
    (hw : ∀ l ∈ items, wfLine l) :
    ∀ l ∈ (parseMergeGo ic p items).1, wfLine l := by
  induction items with
  | nil => intro l hl; exact absurd hl (List.not_mem_nil l)
  | cons e rest ih =>
    have hwe := hw e (by simp)
    by_cases he : (e.name == p.name) = true
    · cases ic
      · rw [parseMergeGo_cons_hit_add p e rest he]
        intro l hl
        rcases List.mem_cons.mp hl with rfl | hl
        · exact ⟨rfl, hwe.2.1, mul_nonneg (Int.natCast_nonneg _) hwe.2.1⟩
        · exact hw l (by simp [hl])
      · rw [parseMergeGo_cons_hit_corr p e rest he]
        intro l hl
        rcases List.mem_cons.mp hl with rfl | hl
        · exact ⟨rfl, hwe.2.1, mul_nonneg (Int.natCast_nonneg _) hwe.2.1⟩
        · exact hw l (by simp [hl])
    · rw [Bool.not_eq_true] at he
      rw [parseMergeGo_cons_miss ic p e rest he]
      intro l hl
      rcases List.mem_cons.mp hl with rfl | hl
      · exact hwe
      · exact ih (fun x hx => hw x (by simp [hx])) l hl

lemma parseMergeStep_wf {ic : Bool} {acc : List OrderLine × Option Str}
    {p : OrderLine} (hacc : wfItems acc.1) (hp : wfLine p) :
    wfItems (parseMergeStep ic acc p).1 := by
  unfold parseMergeStep
  dsimp only
  cases hr : (parseMergeGo ic p acc.1).2
  · simp only [hr, Bool.false_eq_true, if_false]
    have hnot := parseMergeGo_false_not_found hr
    constructor
    · intro l hl
      rcases List.mem_append.mp hl with hl | hl
      · exact hacc.1 l hl
      · rcases List.mem_singleton.mp hl with rfl
        exact hp
    · rw [List.map_append]
      rw [List.nodup_append]
      refine ⟨hacc.2, List.nodup_singleton _, ?_⟩
      intro a ha hb
      simp only [List.map_cons, List.map_nil, List.mem_singleton] at hb
      obtain ⟨e, he, hname⟩ := List.mem_map.mp ha
      have := hnot e he
      rw [hb] at hname
      rw [hname] at this
      simp at this
  · simp only [hr, if_true]
    exact ⟨parseMergeGo_wfAll hacc.1, by rw [parseMergeGo_names]; exact hacc.2⟩

lemma mergeFold_wf {ic : Bool} (ps : List OrderLine) :
    ∀ acc : List OrderLine × Option Str, wfItems acc.1 → (∀ l ∈ ps, wfLine l) →
    wfItems (ps.foldl (parseMergeStep ic) acc).1 := by
  induction ps with
  | nil => intro acc hacc _; exact hacc
  | cons p ps ih =>
    intro acc hacc hps
    simp only [List.foldl_cons]
    exact ih (parseMergeStep ic acc p)
      (parseMergeStep_wf hacc (hps p (by simp)))
      (fun x hx => hps x (by simp [hx]))

lemma mergeParsed_wf {ic : Bool} {ps items : List OrderLine}
    (hw : wfItems items) (hps : ∀ l ∈ ps, wfLine l) :
    wfItems (mergeParsed ic ps items).1 := by
  unfold mergeParsed
  exact mergeFold_wf ps (items, none) hw hps

lemma mergeConfirmGo_cons_hit (p e : OrderLine) (rest : List OrderLine)
    (he : (e.name == p.name) = true) :
    mergeConfirmGo p (e :: rest) =
      ({ e with
          quantity := e.quantity + 1,
          total_price := ((e.quantity + 1 : Nat) : ℤ) * e.unit_price } :: rest, true) := by
  unfold mergeConfirmGo
  rw [he, if_pos rfl]

lemma mergeConfirmGo_cons_miss (p e : OrderLine) (rest : List OrderLine)
    (he : (e.name == p.name) = false) :
    mergeConfirmGo p (e :: rest) =
      (e :: (mergeConfirmGo p rest).1, (mergeConfirmGo p rest).2) := by
  conv_lhs => rw [mergeConfirmGo]
  rw [he, if_neg (by simp)]

lemma mergeConfirmGo_names (p : OrderLine) (items : List OrderLine) :
    (mergeConfirmGo p items).1.map (fun l => l.name) =
      items.map (fun l => l.name) := by
  induction items with
  | nil => rfl
  | cons e rest ih =>
    by_cases he : (e.name == p.name) = true
    · rw [mergeConfirmGo_cons_hit p e rest he]
      rfl
    · rw [Bool.not_eq_true] at he
      rw [mergeConfirmGo_cons_miss p e rest he]
      simp only [List.map_cons]
      rw [ih]

lemma mergeConfirmGo_wfAll {p : OrderLine} {items : List OrderLine}
    (hw : ∀ l ∈ items, wfLine l) :
    ∀ l ∈ (mergeConfirmGo p items).1, wfLine l := by
  induction items with
  | nil => intro l hl; exact absurd hl (List.not_mem_nil l)
  | cons e rest ih =>
    have hwe := hw e (by simp)
    by_cases he : (e.name == p.name) = true
    · rw [mergeConfirmGo_cons_hit p e rest he]
      intro l hl
      rcases List.mem_cons.mp hl with rfl | hl
      · exact ⟨rfl, hwe.2.1, mul_nonneg (Int.natCast_nonneg _) hwe.2.1⟩
      · exact hw l (by simp [hl])
    · rw [Bool.not_eq_true] at he
      rw [mergeConfirmGo_cons_miss p e rest he]
      intro l hl
      rcases List.mem_cons.mp hl with rfl | hl
      · exact hwe
      · exact ih (fun x hx => hw x (by simp [hx])) l hl

lemma mergeConfirmGo_false_not_found {p : OrderLine} {items : List OrderLine}
    (h : (mergeConfirmGo p items).2 = false) :
    ∀ e ∈ items, (e.name == p.name) = false := by
  induction items with
  | nil => intro e he; exact absurd he (List.not_mem_nil e)
  | cons e rest ih =>
    intro x hx
    by_cases he : (e.name == p.name) = true
    · exfalso
      rw [mergeConfirmGo_cons_hit p e rest he] at h
      exact Bool.noConfusion h
    · rw [Bool.not_eq_true] at he
      rw [mergeConfirmGo_cons_miss p e rest he] at h
      rcases List.mem_cons.mp hx with hx | hx
      · rw [hx]; exact he
      · exact ih h x hx

lemma mergeConfirm_wf {items : List OrderLine} {p : OrderLine}
    (hw : wfItems items) (hp : wfLine p) : wfItems (mergeConfirm items p) := by
  unfold mergeConfirm
  dsimp only
  cases hr : (mergeConfirmGo p items).2
  · simp only [hr, Bool.false_eq_true, if_false]
    have hnot := mergeConfirmGo_false_not_found hr
    constructor
    · intro l hl
      rcases List.mem_append.mp hl with hl | hl
      · exact hw.1 l hl
      · rcases List.mem_singleton.mp hl with rfl
        exact hp
    · rw [List.map_append, List.nodup_append]
      refine ⟨hw.2, List.nodup_singleton _, ?_⟩
      intro a ha hb
      simp only [List.map_cons, List.map_nil, List.mem_singleton] at hb
      obtain ⟨e, he, hname⟩ := List.mem_map.mp ha
      have := hnot e he
      rw [hb] at hname
      rw [hname] at this
      simp at this
  · simp only [hr, if_true]
    exact ⟨mergeConfirmGo_wfAll hw.1, by rw [mergeConfirmGo_names]; exact hw.2⟩

lemma corrUpdateFirst_wf {qty : Nat} {desc : Str} {items items2 : List OrderLine}
    (hw : ∀ l ∈ items, wfLine l)
    (h : corrUpdateFirst qty desc items = some items2) :
    (∀ l ∈ items2, wfLine l) ∧
    items2.map (fun l => l.name) = items.map (fun l => l.name) := by
  induction items generalizing items2 with
  | nil => exact Option.noConfusion h
  | cons e rest ih =>
    have hwe := hw e (by simp)
    unfold corrUpdateFirst at h
    dsimp only at h
    split at h
    · simp only [Option.some.injEq] at h
      rw [← h]
      constructor
      · intro l hl
        rcases List.mem_cons.mp hl with rfl | hl
        · exact ⟨rfl, hwe.2.1, mul_nonneg (Int.natCast_nonneg _) hwe.2.1⟩
        · exact hw l (by simp [hl])
      · rfl
    · cases hrec : corrUpdateFirst qty desc rest with
      | none => rw [hrec] at h; exact Option.noConfusion h
      | some r =>
        rw [hrec] at h
        injection h with h
        obtain ⟨hr1, hr2⟩ := ih (fun x hx => hw x (by simp [hx])) hrec
        rw [← h]
        constructor
        · intro l hl
          rcases List.mem_cons.mp hl with rfl | hl
          · exact hwe
          · exact hr1 l hl
        · simp only [List.map_cons]
          rw [hr2]

lemma confirmationStep_wf (menu : Menu) (st : Conv) (tl : Str) (cr : Conv × Str)
    (hm : menuNonneg menu) (hwf : wfItems st.order_items)
    (h : confirmationStep menu st tl = some cr) : wfItems cr.1.order_items := by
  unfold confirmationStep at h
  split at h <;> try exact Option.noConfusion h
  split at h <;> try exact Option.noConfusion h
  split at h <;> try exact Option.noConfusion h
  dsimp only at h
  split at h <;> try exact Option.noConfusion h
  split at h <;> try exact Option.noConfusion h
  · rename_i p hfound
    have hp : p ∈ menu := by
      split at hfound
      · split at hfound
        · exact Option.noConfusion hfound
        · exact List.mem_of_find?_eq_some hfound
      · exact Option.noConfusion hfound
    simp only [Option.some.injEq] at h
    rw [← h]
    refine mergeConfirm_wf hwf ⟨?_, hm p hp, hm p hp⟩
    show p.2.price = ((1 : Nat) : ℤ) * p.2.price
    rw [Nat.cast_one, one_mul]
  · split at h <;> try exact Option.noConfusion h
    simp only [Option.some.injEq] at h
    rw [← h]
    exact hwf

lemma correctionStep_wf (st : Conv) (tl : Str) (cr : Conv × Str)
    (hwf : wfItems st.order_items)
    (h : correctionStep st tl = some cr) : wfItems cr.1.order_items := by
  unfold correctionStep at h
  split at h <;> try exact Option.noConfusion h
  split at h <;> try exact Option.noConfusion h
  dsimp only at h
  split at h <;> try exact Option.noConfusion h
  rename_i items2 hupd
  simp only [Option.some.injEq] at h
  rw [← h]
  obtain ⟨h1, h2⟩ := corrUpdateFirst_wf hwf.1 hupd
  refine ⟨h1, ?_⟩
  show (List.map (fun l => l.name) items2).Nodup
  rw [h2]
  exact hwf.2

lemma parseBranch_early_order (menu : Menu) (orc : Oracles) (intent : Intent)
    (st : Conv) (tl text : Str) (c : Conv) (r s : Str)
    (h : parseBranch menu orc intent st tl text = Stage.early c r s) :
    c.order_items = st.order_items := by
  unfold parseBranch at h
  split at h
  · exact absurd h (by unfold parseFlow; exact fun hh => Stage.noConfusion hh)
  · split at h
    · split at h
      · simp only [Stage.early.injEq] at h
        rw [← h.1]
        rfl
      · exact absurd h (fun hh => elseChain_no_early orc intent st tl text c r s hh)
    · exact absurd h (fun hh => elseChain_no_early orc intent st tl text c r s hh)

lemma cascade_early_wf (menu : Menu) (orc : Oracles) (intent : Intent)
    (st : Conv) (tl text : Str) (c : Conv) (r s : Str)
    (hm : menuNonneg menu) (hwf : wfItems st.order_items)
    (h : cascade menu orc intent st tl text = Stage.early c r s) :
    wfItems c.order_items := by
  unfold cascade at h
  split at h
  · rename_i cr hconf
    simp only [Stage.early.injEq] at h
    rw [← h.1]
    exact confirmationStep_wf menu st tl cr hm hwf hconf
  · split at h
    · rename_i cr hcorr
      simp only [Stage.early.injEq] at h
      rw [← h.1]
      exact correctionStep_wf st tl cr hwf hcorr
    · split at h <;> try exact Stage.noConfusion h
      split at h <;> try exact Stage.noConfusion h
      · split at h <;> exact Stage.noConfusion h
      · rw [parseBranch_early_order menu orc intent st tl text c r s h]
        exact hwf

lemma cascade_flow_order (menu : Menu) (orc : Oracles) (intent : Intent)
    (st : Conv) (tl text : Str) (c : Conv) (r s : Str) (b : Bool)
    (h : cascade menu orc intent st tl text = Stage.flow c r s b) :
    c.order_items = st.order_items ∨
    c.order_items =
      (mergeParsed (isCorrectionTurn tl) (parsedTurnItems menu tl text) st.order_items).1 := by
  unfold cascade at h
  split at h <;> try exact Stage.noConfusion h
  split at h <;> try exact Stage.noConfusion h
  split at h
  · simp only [Stage.flow.injEq] at h
    rw [← h.1]
    exact Or.inl rfl
  · split at h
    · split at h <;> (simp only [Stage.flow.injEq] at h; rw [← h.1]; exact Or.inl rfl)
    · unfold parseBranch at h
      split at h
      · rw [parseFlow_state menu st tl text c r s b h]
        exact Or.inr rfl
      · split at h
        · split at h <;> try exact Stage.noConfusion h
          rw [elseChain_flow_state orc intent st tl text c r s b h]
          exact Or.inl rfl
        · rw [elseChain_flow_state orc intent st tl text c r s b h]
          exact Or.inl rfl

/-- C2 (amended): every mutation of `order_items` — parsed-line merge,
"yes"-confirmation addition, quantity-correction replacement — preserves
the ledger invariant: `total_price = quantity * unit_price` on every line,
non-negative unit and total price, and pairwise-distinct line names.
(Positivity of the quantity is not preserved: the extractor accepts an
explicit quantity of 0, see the counterexample.) -/
theorem C2_ledger_invariant (menu : Menu) (orc : Oracles) (intent : Intent)
    (st0 : Conv) (text : Str) (hm : menuNonneg menu)
    (hwf : wfItems st0.order_items) :
    wfItems (process_customer_message menu orc intent st0 text).conv.order_items := by
  unfold process_customer_message
  dsimp only
  have hwf' : wfItems
      ({ addMsg st0 Role.user text with current_intent := some intent } : Conv).order_items := hwf
  cases hc : cascade menu orc intent
      ({ addMsg st0 Role.user text with current_intent := some intent })
      (lowerS text) text with
  | early c r s =>
    exact cascade_early_wf menu orc intent _ (lowerS text) text c r s hm hwf' hc
  | flow c r s b =>
    dsimp only
    rw [finalizePhase_order_items]
    rcases cascade_flow_order menu orc intent _ (lowerS text) text c r s b hc with h | h
    · rw [h]
      exact hwf'
    · rw [h]
      exact mergeParsed_wf hwf' (parsedTurnItems_wf hm (lowerS text) text)

theorem C2_invariant_witness :
    menuNonneg MENU ∧ wfItems freshConv.order_items ∧
    wfItems (process_customer_message MENU noOracles Intent.general_question freshConv
      (S "2 chicken shawarma wraps")).conv.order_items :=
  ⟨by decide, by decide,
   C2_ledger_invariant MENU noOracles Intent.general_question freshConv
     (S "2 chicken shawarma wraps") (by decide) (by decide)⟩

end CallFlow
